import Mathlib

/-!
Verification of the pulumi-yaml type checker and evaluator against the
source in this repository (`pkg/pulumiyaml/analyser.go`, the package
resolution file, and the spec-modelled builtins whose implementation is not
part of the source tree).

The Go schema types (`github.com/pulumi/pulumi/pkg/v3/codegen/schema`) are
embedded as the inductive `SType`.  Primitive types are singletons in Go
(`schema.StringType` etc.), so Go pointer equality on them coincides with
constructor equality here.  `schema.InvalidType` carries a list of
diagnostics, abstracted to their summary strings.  Object properties are
`(name, type, required)` tuples and resource properties `(name, type)`
tuples, in schema order.  `codegen.UnwrapType` strips optional (and input)
wrappers; only the optional wrapper is modelled because input types never
occur in the analysed programs.
-/

inductive SType where
  | invalid (diags : List String)
  | anyType
  | stringType
  | intType
  | numberType
  | boolType
  | assetType
  | archiveType
  | arrayType (elementType : SType)
  | mapType (elementType : SType)
  | objectType (tok : String) (properties : List (String × SType × Bool))
  | unionType (elementTypes : List SType)
  | resourceType (tok : String) (properties : List (String × SType))
  | enumType (tok : String) (elementType : SType)
  | tokenType (tok : String) (underlying : Option SType)
  | optionalType (elementType : SType)

mutual

/-- Structural (Boolean) equality of schema types; stands in for Go
interface equality where the analyser compares types. -/
def steq (a b : SType) : Bool :=
  match a, b with
  | .invalid d1, .invalid d2 => d1 == d2
  | .anyType, .anyType => true
  | .stringType, .stringType => true
  | .intType, .intType => true
  | .numberType, .numberType => true
  | .boolType, .boolType => true
  | .assetType, .assetType => true
  | .archiveType, .archiveType => true
  | .arrayType e1, .arrayType e2 => steq e1 e2
  | .mapType e1, .mapType e2 => steq e1 e2
  | .objectType t1 p1, .objectType t2 p2 => t1 == t2 && steqProps p1 p2
  | .unionType l1, .unionType l2 => steqList l1 l2
  | .resourceType t1 p1, .resourceType t2 p2 => t1 == t2 && steqRProps p1 p2
  | .enumType t1 e1, .enumType t2 e2 => t1 == t2 && steq e1 e2
  | .tokenType t1 (some u1), .tokenType t2 (some u2) => t1 == t2 && steq u1 u2
  | .tokenType t1 none, .tokenType t2 none => t1 == t2
  | .optionalType e1, .optionalType e2 => steq e1 e2
  | _, _ => false
termination_by sizeOf a

def steqProps (p1 p2 : List (String × SType × Bool)) : Bool :=
  match p1, p2 with
  | [], [] => true
  | (n1, t1, r1) :: rest1, (n2, t2, r2) :: rest2 =>
    n1 == n2 && steq t1 t2 && (r1 == r2) && steqProps rest1 rest2
  | _, _ => false
termination_by sizeOf p1

def steqList (l1 l2 : List SType) : Bool :=
  match l1, l2 with
  | [], [] => true
  | a :: r1, b :: r2 => steq a b && steqList r1 r2
  | _, _ => false
termination_by sizeOf l1

def steqRProps (p1 p2 : List (String × SType)) : Bool :=
  match p1, p2 with
  | [], [] => true
  | (n1, t1) :: rest1, (n2, t2) :: rest2 => n1 == n2 && steq t1 t2 && steqRProps rest1 rest2
  | _, _ => false
termination_by sizeOf p1

end

/-- `codegen.UnwrapType`: strip optional wrappers. -/
def unwrapType : SType → SType
  | .optionalType e => unwrapType e
  | t => t

/-- `schema.IsPrimitiveType`: true for the plain scalar types
(bool, int, number, string, archive, asset, any). -/
def isPrimitiveType (t : SType) : Bool :=
  match unwrapType t with
  | .anyType | .stringType | .intType | .numberType | .boolType
  | .assetType | .archiveType => true
  | _ => false

/-- `schema.ObjectType.Property`: first property with the given name. -/
def propertyLookup (props : List (String × SType × Bool)) (name : String) :
    Option (String × SType × Bool) :=
  match props with
  | [] => none
  | p :: rest => if p.1 = name then some p else propertyLookup rest name

theorem sizeOf_unwrapType_le : ∀ (t : SType), sizeOf (unwrapType t) ≤ sizeOf t
  | .invalid _ | .anyType | .stringType | .intType | .numberType | .boolType
  | .assetType | .archiveType | .arrayType _ | .mapType _ | .objectType _ _
  | .unionType _ | .resourceType _ _ | .enumType _ _ | .tokenType _ _ => by
    simp [unwrapType]
  | .optionalType e => by
    have := sizeOf_unwrapType_le e
    simp only [unwrapType]
    simp
    omega

theorem propertyLookup_sizeOf (props : List (String × SType × Bool)) (name : String)
    (p : String × SType × Bool) (h : propertyLookup props name = some p) :
    sizeOf p < sizeOf props := by
  induction props with
  | nil => simp [propertyLookup] at h
  | cons q rest ih =>
    simp only [propertyLookup] at h
    split at h
    · cases h; simp; omega
    · have := ih h; simp; omega

theorem propertyLookup_typeSizeOf (props : List (String × SType × Bool)) (name : String)
    (p : String × SType × Bool) (h : propertyLookup props name = some p) :
    sizeOf p.2.1 < sizeOf props := by
  have := propertyLookup_sizeOf props name p h
  obtain ⟨n, t, r⟩ := p
  simp at this ⊢
  omega

/-! ## notAssignable (analyser.go lines 79-130)

`notAssignable` is the reason tree returned when an assignment is illegal;
`nil` (here `none`) means the assignment is legal. -/

inductive NotAssignable where
  | mk (reason : String) (because : List NotAssignable) (internal : Bool) (property : String)

def NotAssignable.reason : NotAssignable → String
  | .mk r _ _ _ => r

def NotAssignable.because : NotAssignable → List NotAssignable
  | .mk _ b _ _ => b

def NotAssignable.internal : NotAssignable → Bool
  | .mk _ _ i _ => i

def NotAssignable.property : NotAssignable → String
  | .mk _ _ _ p => p

/-- `notAssignable.Because`: replace the `because` list. -/
def NotAssignable.withBecause : NotAssignable → List NotAssignable → NotAssignable
  | .mk r _ i p, b => .mk r b i p

/-- `notAssignable.Property`: set the property name. -/
def NotAssignable.withProperty : NotAssignable → String → NotAssignable
  | .mk r b i _, p => .mk r b i p

mutual

/-- `notAssignable.string(indent)`: indented rendering of the reason tree. -/
def NotAssignable.render (n : NotAssignable) (indent : Nat) : String :=
  match n with
  | .mk reason because _ property =>
    let prop := if property = "" then "" else property ++ ": "
    let s := String.join (List.replicate indent "  ") ++ prop ++ reason
    let s := if because.isEmpty then s else s ++ ":"
    s ++ NotAssignable.renderList because (indent + 1)
termination_by sizeOf n

def NotAssignable.renderList (l : List NotAssignable) (indent : Nat) : String :=
  match l with
  | [] => ""
  | arg :: rest => "\n" ++ arg.render indent ++ NotAssignable.renderList rest indent
termination_by sizeOf l

end

/-- `notAssignable.String()`. -/
def NotAssignable.toString (n : NotAssignable) : String := n.render 0

mutual

/-- `notAssignable.IsInternal()`: the node or any reason below it is internal. -/
def NotAssignable.isInternal (n : NotAssignable) : Bool :=
  match n with
  | .mk _ because i _ => i || NotAssignable.anyInternal because
termination_by sizeOf n

def NotAssignable.anyInternal (l : List NotAssignable) : Bool :=
  match l with
  | [] => false
  | b :: rest => b.isInternal || NotAssignable.anyInternal rest
termination_by sizeOf l

end

/-! ## displayType (analyser.go lines 132-159) -/

/-- `adhockObjectToken`. -/
def adhockObjectToken : String := "pulumi:adhock:"

/-- The `schema.Type.String()` renderings used by `displayType`'s default
arm.  The exact strings are cosmetic: no theorem below depends on them. -/
def typeStringName : SType → String
  | .invalid _ => "Invalid"
  | .anyType => "any"
  | .stringType => "string"
  | .intType => "integer"
  | .numberType => "number"
  | .boolType => "boolean"
  | .assetType => "asset"
  | .archiveType => "archive"
  | .arrayType _ => "array"
  | .mapType _ => "map"
  | .objectType tok _ => tok
  | .unionType _ => "union"
  | .resourceType tok _ => tok
  | .enumType tok _ => tok
  | .tokenType tok none => tok ++ "<type = any>"
  | .tokenType tok (some _) => tok ++ "<type = underlying>"
  | .optionalType _ => "optional"

mutual

/-- `displayType`: user-facing rendering of a schema type. -/
def displayType (t : SType) : String :=
  match h : unwrapType t with
  | .objectType tok props =>
    if ¬ tok.startsWith adhockObjectToken then tok
    else "\x7b" ++ ", ".intercalate (displayProps props) ++ "\x7d"
  | .arrayType e => "List<" ++ displayType e ++ ">"
  | .mapType e => "Map<" ++ displayType e ++ ">"
  | .unionType elems => "Union<" ++ ", ".intercalate (displayList elems) ++ ">"
  | u => typeStringName u
termination_by sizeOf t
decreasing_by
  all_goals
    have hle := sizeOf_unwrapType_le t
    rw [h] at hle
    simp at hle
    omega

def displayProps (props : List (String × SType × Bool)) : List String :=
  match props with
  | [] => []
  | (n, pt, _) :: rest => (n ++ ": " ++ displayType pt) :: displayProps rest
termination_by sizeOf props

def displayList (elems : List SType) : List String :=
  match elems with
  | [] => []
  | e :: rest => displayType e :: displayList rest
termination_by sizeOf elems

end

/-! ## isAssignable (analyser.go lines 161-328)

`isAssignable(from, to)` returns `nil` (`none`) when the assignment is
legal.  The source's two opening `codegen.UnwrapType` calls are the wrapper
`isAssignable`; `isAssignableU` is the remainder of the body, operating on
the unwrapped pair.  The list loops of the source are the helper functions
below, each preserving the source's iteration order and early returns. -/

mutual

def isAssignable (fromT toT : SType) : Option NotAssignable :=
  isAssignableU (unwrapType fromT) (unwrapType toT)
termination_by 2 * (sizeOf fromT + sizeOf toT) + 1
decreasing_by
  have h1 := sizeOf_unwrapType_le fromT
  have h2 := sizeOf_unwrapType_le toT
  omega

def isAssignableU (fromU toU : SType) : Option NotAssignable :=
  -- If either type is invalid, we return (lines 167-174).
  match fromU, toU with
  | .invalid _, _ => none
  | _, .invalid _ => none
  | fromT, tgt =>
    let fail : NotAssignable :=
      .mk ("Cannot assign " ++ displayType fromT ++ " to type " ++ displayType tgt) [] false ""
    -- A union `from` assigns iff every element assigns (lines 196-210).
    match fromT with
    | .unionType elems =>
      match fromUnionReasons elems tgt with
      | [] => none
      | reasons => some (fail.withBecause reasons)
    | fromT =>
      if isPrimitiveType tgt then
        -- lines 212-234
        match tgt with
        | .anyType => none
        | .numberType | .intType =>
          match fromT with
          | .numberType | .intType => none
          | _ => some fail
        | .stringType =>
          -- Resources can coerce into strings (by implicitly calling urn);
          -- numbers and booleans also coerce.
          match fromT with
          | .resourceType _ _ | .stringType | .numberType | .intType | .boolType => none
          | _ => some fail
        | .assetType =>
          -- Asset fields also accept archives.
          match fromT with
          | .assetType | .archiveType => none
          | _ => some fail
        | _ =>
          -- default: okIf(from == to); the target here is boolType or archiveType
          if steq fromT tgt then none else some fail
      else
        match tgt with
        | .unionType elems =>
          -- lines 237-246: some element must accept `from`
          match toUnionReasons fromT elems with
          | none => none
          | some reasons => some (fail.withBecause reasons)
        | .arrayType toElem =>
          -- lines 247-252
          match fromT with
          | .arrayType fromElem =>
            match isAssignable fromElem toElem with
            | none => none
            | some s => some (fail.withBecause [s])
          | _ => some fail
        | .mapType toElem =>
          -- lines 253-274: maps accept maps element-wise and objects whose
          -- property types each assign to the element type
          match fromT with
          | .mapType fromElem =>
            match isAssignable fromElem toElem with
            | none => none
            | some s => some (fail.withBecause [s])
          | .objectType _ props =>
            if props.isEmpty then none
            else
              match mapObjReason props toElem with
              | some notOk => some (fail.withBecause [notOk])
              | none => none
          | _ => some fail
        | .resourceType toTok _ =>
          -- lines 275-277: token equality
          match fromT with
          | .resourceType fromTok _ => if toTok = fromTok then none else some fail
          | _ => some fail
        | .enumType _ elemT =>
          -- lines 278-286
          match isAssignable fromT elemT with
          | some _ => some fail
          | none => none
        | .objectType _ toProps =>
          -- lines 287-316: structural typing
          match fromT with
          | .objectType _ fromProps =>
            match objFailures fromProps toProps with
            | [] => none
            | failures => some (fail.withBecause failures)
          | _ => some fail
        | .tokenType tok underlying =>
          -- lines 317-321
          match underlying with
          | some u => isAssignable fromT u
          | none => some (.mk ("Unknown opaque type: " ++ tok) [] true "")
        | u =>
          -- line 322-327 default: unknown `to` kind, internal error
          some (.mk ("Unknown type: " ++ typeStringName u) [] true "")
termination_by 2 * (sizeOf fromU + sizeOf toU)
decreasing_by
  all_goals simp_all
  all_goals omega

/-- The loop of lines 197-203: reasons of the union elements that fail. -/
def fromUnionReasons (elems : List SType) (tgt : SType) : List NotAssignable :=
  match elems with
  | [] => []
  | subtype :: rest =>
    match isAssignable subtype tgt with
    | none => fromUnionReasons rest tgt
    | some because => because :: fromUnionReasons rest tgt
termination_by 2 * (sizeOf elems + sizeOf tgt) + 1
decreasing_by
  all_goals simp
  all_goals omega

/-- The loop of lines 238-245: `none` when some element accepts `from`,
otherwise the reasons of every element. -/
def toUnionReasons (fromT : SType) (elems : List SType) : Option (List NotAssignable) :=
  match elems with
  | [] => some []
  | subtype :: rest =>
    match isAssignable fromT subtype with
    | none => none
    | some because =>
      match toUnionReasons fromT rest with
      | none => none
      | some reasons => some (because :: reasons)
termination_by 2 * (sizeOf fromT + sizeOf elems) + 1
decreasing_by
  all_goals simp
  all_goals omega

/-- The loop of lines 265-270: the first object property whose type does not
assign to the map's element type, tagged with the property name. -/
def mapObjReason (props : List (String × SType × Bool)) (toElem : SType) :
    Option NotAssignable :=
  match props with
  | [] => none
  | (name, pt, _) :: rest =>
    match isAssignable pt toElem with
    | some notOk => some (notOk.withProperty name)
    | none => mapObjReason rest toElem
termination_by 2 * (sizeOf props + sizeOf toElem) + 1
decreasing_by
  all_goals simp
  all_goals omega

/-- The loop of lines 293-312: per-property failures of a structural object
assignment. -/
def objFailures (fromProps : List (String × SType × Bool))
    (toProps : List (String × SType × Bool)) : List NotAssignable :=
  match toProps with
  | [] => []
  | (name, pt, required) :: rest =>
    match hfind : propertyLookup fromProps name with
    | none =>
      if required then
        (NotAssignable.mk ("Missing required property '" ++ name ++ "'") [] false
          "").withProperty name :: objFailures fromProps rest
      else objFailures fromProps rest
    | some fromProp =>
      match isAssignable fromProp.2.1 pt with
      | some notAssign => notAssign.withProperty name :: objFailures fromProps rest
      | none => objFailures fromProps rest
termination_by 2 * (sizeOf fromProps + sizeOf toProps) + 1
decreasing_by
  all_goals simp
  all_goals try omega
  all_goals (have hsz := propertyLookup_typeSizeOf _ _ _ hfind; simp at hsz; omega)

end

/-! ## typePropertyAccess (analyser.go lines 542-678)

Property accessors (`ast.PropertyAccessor`) are either a property name or a
subscript carrying an `int` or a `string` index.  `typePropertyAccess`
threads a `setError` callback; calls to the ambient callback are returned
here as the second component, a list of `(summary, detail)` pairs.  In the
union case the source substitutes a local callback that records the
branches' errors privately, so branch error calls are captured into the
reason list and do not surface in the second component; the Go map used to
deduplicate the branch result types is modelled with insertion order (its
iteration order in Go is unspecified).  Where the source returns the result
of `setError` (an invalid type carrying the diagnostic), the model returns
`.invalid [summary]`; where it returns a fresh `schema.InvalidType`, the
model returns `.invalid []`. -/

inductive Accessor where
  | name (s : String)
  | subInt (i : Int)
  | subStr (s : String)

/-- `*ast.PropertySubscript` test used to pick between "access" and "index". -/
def Accessor.isSubscript : Accessor → Bool
  | .name _ => false
  | .subInt _ | .subStr _ => true

/-- Last-wins lookup corresponding to the Go map built from property lists
(`properties[prop.Name] = prop.Type` in declaration order). -/
def lastPropType (props : List (String × SType × Bool)) (n : String) : Option SType :=
  props.foldl (fun acc p => if p.1 = n then some p.2.1 else acc) none

/-- Last-wins lookup over resource properties, with the synthetic `id` and
`urn` string properties overriding (lines 615-620). -/
def resourcePropType (props : List (String × SType)) (n : String) : Option SType :=
  if n = "id" ∨ n = "urn" then some .stringType
  else props.foldl (fun acc p => if p.1 = n then some p.2 else acc) none

/-- Modelled from the spec: the `yamldiags.NonExistantFieldFormatter`
message, whose implementation lives outside the source tree.  The spec says
missing properties "produce an error listing existing properties, ordered
lexicographically, truncated to the first five plus a count of the
remainder"; no theorem below depends on the exact text. -/
def nonExistantFieldMessage (parentLabel : String) (fields : List String)
    (field : String) : String × String :=
  let sorted := (fields.mergeSort (· ≤ ·)).take 5
  (field ++ " does not exist on " ++ parentLabel,
    "Existing properties are: " ++ ", ".intercalate sorted)

/-- Deduplicating insertion standing in for the Go set
`map[schema.Type]struct{}`. -/
def insertPossibility (l : List SType) (t : SType) : List SType :=
  if l.any (fun x => steq x t) then l else l ++ [t]

/-- Collect the distinct branch result types, in branch order. -/
def dedupTypes (l : List SType) : List SType :=
  l.foldl insertPossibility []

mutual

def typePropertyAccess (root : SType) (runningName : String)
    (accessors : List Accessor) : SType × List (String × String) :=
  match accessors with
  | [] => (root, [])
  | accessor :: rest =>
    match root with
    | .unionType elems =>
      -- lines 573-606: try every branch, recording branch errors privately
      let branches := unionBranches elems runningName (accessor :: rest)
      let possibilities := dedupTypes branches.1
      let errs := branches.2
      if errs.isEmpty then
        match possibilities with
        | [t] => (t, [])
        | arr => (.unionType arr, [])
      else
        let op := if accessor.isSubscript then "index" else "access"
        let summary :=
          "Cannot " ++ op ++ " into " ++ runningName ++ " of type " ++
            displayType (.unionType elems)
        let detail :=
          (NotAssignable.mk
            ("'" ++ runningName ++ "' could be a type that does not support " ++ op ++ "ing")
            errs false "").toString
        -- line 596: the source returns a fresh `&schema.InvalidType{}`
        (.invalid [], [(summary, detail)])
    | root =>
      match accessor with
      | .name n =>
        -- lines 607-646
        match unwrapType root with
        | .objectType _ props =>
          match lastPropType props n with
          | some newType =>
            typePropertyAccess newType (runningName ++ "." ++ n) rest
          | none =>
            let msg := nonExistantFieldMessage runningName (props.map (·.1)) n
            (.invalid [msg.1], [msg])
        | .resourceType _ props =>
          match resourcePropType props n with
          | some newType =>
            typePropertyAccess newType (runningName ++ "." ++ n) rest
          | none =>
            let msg :=
              nonExistantFieldMessage runningName (props.map (·.1) ++ ["id", "urn"]) n
            (.invalid [msg.1], [msg])
        | .invalid ds => (.invalid ds, [])
        | u =>
          let summary :=
            "cannot access a property on '" ++ runningName ++ "' (type " ++
              displayType u ++ ")"
          (.invalid [summary],
            [(summary, "Property access is only allowed on Resources and Objects")])
      | .subInt i =>
        -- lines 647-674
        match unwrapType root with
        | .arrayType elem =>
          typePropertyAccess elem (runningName ++ "[" ++ toString i ++ "]") rest
        | .mapType _ =>
          let summary :=
            "Cannot index via number into '" ++ runningName ++ "' (type " ++
              displayType (unwrapType root) ++ ")"
          (.invalid [summary], [(summary, "Index via number is only allowed on Arrays")])
        | .invalid _ => (.invalid [], [])
        | _ =>
          let summary :=
            "Cannot index into '" ++ runningName ++ "' (type " ++
              displayType (unwrapType root) ++ ")"
          (.invalid [summary],
            [(summary, "Index property access is only allowed on Maps and Lists")])
      | .subStr k =>
        match unwrapType root with
        | .arrayType _ =>
          let summary :=
            "Cannot index via string into '" ++ runningName ++ "' (type " ++
              displayType (unwrapType root) ++ ")"
          (.invalid [summary], [(summary, "Index via string is only allowed on Maps")])
        | .mapType elem =>
          typePropertyAccess elem (runningName ++ "[\"" ++ k ++ "\"]") rest
        | .invalid _ => (.invalid [], [])
        | _ =>
          let summary :=
            "Cannot index into '" ++ runningName ++ "' (type " ++
              displayType (unwrapType root) ++ ")"
          (.invalid [summary],
            [(summary, "Index property access is only allowed on Maps and Lists")])
termination_by (accessors.length, sizeOf root)

/-- The loop of lines 576-585: each branch's non-invalid result types in
branch order (deduplicated by the caller) and the branch errors converted
to `notAssignable` records. -/
def unionBranches (elems : List SType) (runningName : String)
    (accessors : List Accessor) : List SType × List NotAssignable :=
  match elems with
  | [] => ([], [])
  | subtype :: restElems =>
    let r := typePropertyAccess subtype runningName accessors
    let branchErrs : List NotAssignable :=
      r.2.map (fun c => .mk c.1 [] false (typeStringName subtype))
    let tail := unionBranches restElems runningName accessors
    let kept :=
      match r.1 with
      | .invalid _ => tail.1
      | t => t :: tail.1
    (kept, branchErrs ++ tail.2)
termination_by (accessors.length, sizeOf elems)

end

/-! ## Expressions and the type cache (analyser.go lines 20-77, 476-802)

`ast.Expr` is embedded as `Expr`.  Expression payloads that the type
checker never inspects (asset sources, interpolation text, numeric and
boolean literal values) are carried only so that distinct expressions stay
distinct cache keys; Go compares cache keys by pointer, which the model
renders as structural equality (the checker computes the same type for
structurally equal expressions, so collisions are harmless).  The source
type-asserts object keys to `*ast.StringExpr` (panicking otherwise), so
object entries carry the key string directly. -/

inductive Expr where
  | null
  | boolean (b : Bool)
  | number (printed : String)
  | str (s : String)
  | interpolate (raw : String)
  | symbol (root : String) (accessors : List Accessor)
  | list (elements : List Expr)
  | object (entries : List (String × Expr))
  | invoke (tok : String) (callArgs : Option (List (String × Expr))) (ret : Option String)
  | assetArchive (args : List (String × Expr))
  | fileArchive (source : Expr)
  | remoteArchive (source : Expr)
  | fileAsset (source : Expr)
  | remoteAsset (source : Expr)
  | strAsset (source : Expr)
  | toJSON (value : Expr)
  | join (delimiter : Expr) (values : Expr)
  | split (delimiter : Expr) (source : Expr)
  | select (index : Expr) (values : Expr)
  | secret (value : Expr)
  | toBase64 (value : Expr)
  | fromBase64 (value : Expr)
  | readFile (path : Expr)

/-- Accessor equality (used by expression equality). -/
def aeq (a b : Accessor) : Bool :=
  match a, b with
  | .name s1, .name s2 => s1 == s2
  | .subInt i1, .subInt i2 => i1 == i2
  | .subStr s1, .subStr s2 => s1 == s2
  | _, _ => false

mutual

/-- Structural expression equality: the model's stand-in for Go pointer
identity of `ast.Expr` cache keys. -/
def eeq (a b : Expr) : Bool :=
  match a, b with
  | .null, .null => true
  | .boolean b1, .boolean b2 => b1 == b2
  | .number p1, .number p2 => p1 == p2
  | .str s1, .str s2 => s1 == s2
  | .interpolate r1, .interpolate r2 => r1 == r2
  | .symbol r1 a1, .symbol r2 a2 => r1 == r2 && a1.length == a2.length && (a1.zip a2).all (fun p => aeq p.1 p.2)
  | .list l1, .list l2 => eeqList l1 l2
  | .object e1, .object e2 => eeqEntries e1 e2
  | .invoke t1 c1 r1, .invoke t2 c2 r2 =>
    t1 == t2 && r1 == r2 &&
      (match c1, c2 with
       | none, none => true
       | some l1, some l2 => eeqEntries l1 l2
       | _, _ => false)
  | .assetArchive a1, .assetArchive a2 => eeqEntries a1 a2
  | .fileArchive s1, .fileArchive s2 => eeq s1 s2
  | .remoteArchive s1, .remoteArchive s2 => eeq s1 s2
  | .fileAsset s1, .fileAsset s2 => eeq s1 s2
  | .remoteAsset s1, .remoteAsset s2 => eeq s1 s2
  | .strAsset s1, .strAsset s2 => eeq s1 s2
  | .toJSON v1, .toJSON v2 => eeq v1 v2
  | .join d1 v1, .join d2 v2 => eeq d1 d2 && eeq v1 v2
  | .split d1 s1, .split d2 s2 => eeq d1 d2 && eeq s1 s2
  | .select i1 v1, .select i2 v2 => eeq i1 i2 && eeq v1 v2
  | .secret v1, .secret v2 => eeq v1 v2
  | .toBase64 v1, .toBase64 v2 => eeq v1 v2
  | .fromBase64 v1, .fromBase64 v2 => eeq v1 v2
  | .readFile p1, .readFile p2 => eeq p1 p2
  | _, _ => false
termination_by sizeOf a

def eeqList (l1 l2 : List Expr) : Bool :=
  match l1, l2 with
  | [], [] => true
  | a :: r1, b :: r2 => eeq a b && eeqList r1 r2
  | _, _ => false
termination_by sizeOf l1

def eeqEntries (l1 l2 : List (String × Expr)) : Bool :=
  match l1, l2 with
  | [], [] => true
  | (k1, v1) :: r1, (k2, v2) :: r2 => k1 == k2 && eeq v1 v2 && eeqEntries r1 r2
  | _, _ => false
termination_by sizeOf l1

end

/-- The `tc.exprs` map.  A value of `none` models a Go `nil` `schema.Type`
stored in the map (which `TypeExpr` reports as nil, i.e. "unknown"). -/
def ExprCache := List (Expr × Option SType)

/-- Map write (`tc.exprs[e] = v`), as shadowing prepend. -/
def cacheSet (c : ExprCache) (e : Expr) (v : Option SType) : ExprCache :=
  (e, v) :: c

/-- Raw map read: `some v` when the key is present (`v = none` for a stored
nil), `none` when absent. -/
def cacheGet (c : ExprCache) (e : Expr) : Option (Option SType) :=
  match c with
  | [] => none
  | (k, v) :: rest => if eeq k e then some v else cacheGet rest e

/-- `typeCache.TypeExpr`: the cached type, nil both for missing keys and
stored nils. -/
def typeExprLookup (c : ExprCache) (e : Expr) : Option SType :=
  match cacheGet c e with
  | some (some t) => some t
  | _ => none

/-! ## Diagnostics -/

inductive Severity where
  | error
  | warning

structure Diag where
  severity : Severity
  summary : String
  detail : String

/-- `assertTypeAssignable` (analyser.go lines 330-349).  A `none` target
means a Go nil expected type (return immediately); a `none` source models a
missing cached type for the checked expression, which the source would
crash rendering — unreachable because the walker types children first, and
modelled as producing no diagnostic. -/
def assertTypeAssignable (fromT : Option SType) (toT : Option SType) : List Diag :=
  match toT with
  | none => []
  | some toT =>
    match fromT with
    | none => []
    | some fromT =>
      match isAssignable fromT toT with
      | none => []
      | some result =>
        let summary := displayType toT ++ " is not assignable from " ++ displayType fromT
        if result.isInternal then
          [⟨.warning, "internal error: " ++ summary, result.toString⟩]
        else [⟨.error, summary, result.toString⟩]

/-! ## typeInvoke and typeSymbol (analyser.go lines 476-565) -/

/-- Generic last-wins association lookup, matching Go map construction by
iteration (`m[k] = v` with later entries overwriting earlier ones). -/
def lastLookup {α : Type} (l : List (String × α)) (n : String) : Option α :=
  l.foldl (fun acc p => if p.1 = n then some p.2 else acc) none

/-- The schema description of a provider function
(`pkg.FunctionTypeHint`): input properties and the output object (token and
properties), either possibly absent. -/
structure FunctionHint where
  inputs : Option (List (String × SType))
  outputs : Option (String × List (String × SType × Bool))

/-- The checker's environment: the populated name tables of `typeCache`
(`resourceNames`/`resources` composed, `variableNames`, `configuration`)
and the function schemas reachable through the `PackageLoader`.  The
loader itself is an external interface; `ResolveFunction` is modelled as a
lookup that either finds a schema or fails. -/
structure TypeEnv where
  resourceNames : List (String × SType)
  variableNames : List (String × Expr)
  configuration : List (String × SType)
  functions : List (String × FunctionHint)

/-- `ResolveFunction` through the mocked loader. -/
def resolveFunctionHint (env : TypeEnv) (tok : String) : Option FunctionHint :=
  lastLookup env.functions tok

/-- The `Return` loop of lines 515-523: the type of the last output whose
lower-cased name matches the lower-cased `return` attribute. -/
def lastRetType (outputs : List (String × SType × Bool)) (r : String) : Option SType :=
  outputs.foldl
    (fun acc p => if p.1.toLower = r.toLower then some p.2.1 else acc) none

/-- The argument loop of lines 496-508: unknown argument names produce an
error diagnostic; known ones cache the declared input type against the
argument expression. -/
def invokeArgsLoop (inputs : List (String × SType)) (tok : String)
    (entries : List (String × Expr)) (cache : ExprCache) : ExprCache × List Diag :=
  entries.foldl
    (fun acc entry =>
      match lastLookup inputs entry.1 with
      | none =>
        (acc.1, acc.2 ++
          [⟨.error, entry.1 ++ " does not exist on Invoke " ++ tok, entry.1⟩])
      | some typ => (cacheSet acc.1 entry.2 (some typ), acc.2))
    (cache, [])

/-- `typeCache.typeInvoke` (lines 476-540).  When `hint.Outputs` is nil and
no `return` attribute is present the source stores a typed-nil
`*schema.ObjectType` into the interface-valued map, which readers observe
as a defined (non-nil) type; it is modelled as an empty object type. -/
def typeInvoke (env : TypeEnv) (cache : ExprCache) (e : Expr) (tok : String)
    (callArgs : Option (List (String × Expr))) (ret : Option String) :
    ExprCache × List Diag :=
  match resolveFunctionHint env tok with
  | none =>
    (cache, [⟨.error, "unable to find function " ++ tok, ""⟩])
  | some hint =>
    let inputs := hint.inputs.getD []
    let argsR := invokeArgsLoop inputs tok (callArgs.getD []) cache
    match ret with
    | some r =>
      let outs := (hint.outputs.map (·.2)).getD []
      match lastRetType outs r with
      | some returnType => (cacheSet argsR.1 e (some returnType), argsR.2)
      | none =>
        (argsR.1, argsR.2 ++ [⟨.error, r ++ " does not exist on " ++ tok, r⟩])
    | none =>
      match hint.outputs with
      | some (tokO, outs) => (cacheSet argsR.1 e (some (.objectType tokO outs)), argsR.2)
      | none => (cacheSet argsR.1 e (some (.objectType "" [])), argsR.2)

/-- The root-name resolution of `typeCache.typeSymbol` (lines 542-552): a
`&schema.InvalidType{}` start, overwritten in turn by a resource, variable
and configuration binding of the root name.  The result is `none` exactly
when the winning binding is a variable whose expression has no cached type
(a Go nil stored into `typ`). -/
def rootTypeResolved (env : TypeEnv) (cache : ExprCache) (root : String) :
    Option SType :=
  match lastLookup env.configuration root with
  | some t => some t
  | none =>
    match lastLookup env.variableNames root with
    | some rootExpr => typeExprLookup cache rootExpr
    | none =>
      match lastLookup env.resourceNames root with
      | some t => some t
      | none => some (.invalid [])

/-- `typeCache.typeSymbol` (lines 542-565).  `setError` both records the
diagnostic and yields the invalid result type; with a nil root type and a
nonempty accessor list the source would dereference nil — unreachable in a
walked program and modelled as caching a bare invalid type. -/
def typeSymbol (env : TypeEnv) (cache : ExprCache) (e : Expr) (root : String)
    (accessors : List Accessor) : ExprCache × List Diag :=
  match rootTypeResolved env cache root with
  | some typ =>
    let r := typePropertyAccess typ root accessors
    (cacheSet cache e (some r.1), r.2.map (fun c => ⟨.error, c.1, c.2⟩))
  | none =>
    if accessors.isEmpty then (cacheSet cache e none, [])
    else (cacheSet cache e (some (.invalid [])), [])

/-- Option-level type equality for the Go set `map[schema.Type]struct{}`
of the list case, where a nil type is a key distinct from every type. -/
def optSteq (a b : Option SType) : Bool :=
  match a, b with
  | none, none => true
  | some x, some y => steq x y
  | _, _ => false

/-- Distinct cached element types in first-seen order (the Go map's
iteration order is unspecified). -/
def dedupOptTypes (l : List (Option SType)) : List (Option SType) :=
  l.foldl (fun acc t => if acc.any (fun x => optSteq x t) then acc else acc ++ [t]) []

/-- `schema.Property.IsRequired`: a property is required when its type is
not optional-wrapped.  A missing (nil) property type is treated as
required, matching `IsRequired` on a nil type's wrapper. -/
def propRequired (t : Option SType) : Bool :=
  match t with
  | some (.optionalType _) => false
  | _ => true

/-- One visit of `typeCache.typeExpr` (lines 680-780) on an expression
whose children the walker has already visited.  Go `nil` types read from
the cache while building composite types are modelled as diagnostic-free
invalid types. -/
def typeExprStep (env : TypeEnv) (cache : ExprCache) (e : Expr) :
    ExprCache × List Diag :=
  match e with
  | .invoke tok callArgs ret => typeInvoke env cache e tok callArgs ret
  | .symbol root accessors => typeSymbol env cache e root accessors
  | .str _ => (cacheSet cache e (some .stringType), [])
  | .number _ => (cacheSet cache e (some .numberType), [])
  | .boolean _ => (cacheSet cache e (some .boolType), [])
  | .assetArchive _ | .fileArchive _ | .remoteArchive _ =>
    (cacheSet cache e (some .archiveType), [])
  | .fileAsset _ | .remoteAsset _ | .strAsset _ =>
    (cacheSet cache e (some .assetType), [])
  | .interpolate _ => (cacheSet cache e (some .stringType), [])
  | .toJSON _ => (cacheSet cache e (some .stringType), [])
  | .join delimiter _ =>
    let diags := assertTypeAssignable (typeExprLookup cache delimiter) (some .stringType)
    (cacheSet cache e (some .stringType), diags)
  | .list elements =>
    -- lines 704-727: the distinct element types (a Go set keyed by
    -- schema.Type, including nil), then invalid/single/union
    let raw := elements.map (fun el => typeExprLookup cache el)
    let typeList := dedupOptTypes raw
    let elementType : SType :=
      match typeList with
      | [] => .invalid []
      | [t] => t.getD (.invalid [])
      | ts => .unionType (ts.map (fun t => t.getD (.invalid [])))
    (cacheSet cache e (some (.arrayType elementType)), [])
  | .object entries =>
    -- lines 728-743: an ad-hoc object type named by its property list
    let properties := entries.map
      (fun entry => (entry.1, (typeExprLookup cache entry.2).getD (.invalid []),
        propRequired (typeExprLookup cache entry.2)))
    let propNames := entries.map (·.1)
    (cacheSet cache e
      (some (.objectType (adhockObjectToken ++ "•".intercalate propNames) properties)), [])
  | .null => (cacheSet cache e (some (.invalid [])), [])
  | .secret value => (cacheSet cache e (typeExprLookup cache value), [])
  | .split delimiter source =>
    let diags := assertTypeAssignable (typeExprLookup cache delimiter) (some .stringType) ++
      assertTypeAssignable (typeExprLookup cache source) (some .stringType)
    (cacheSet cache e (some (.arrayType .stringType)), diags)
  | .select index values =>
    let diags := assertTypeAssignable (typeExprLookup cache index) (some .intType) ++
      assertTypeAssignable (typeExprLookup cache values) (some (.arrayType .anyType))
    match cacheGet cache values with
    | some valuesType =>
      match valuesType.map unwrapType with
      | some (.arrayType elem) => (cacheSet cache e (some elem), diags)
      | _ =>
        (cacheSet cache e
          (some (.invalid ["Could not derive types from array, since a non-array was found instead"])),
         diags)
    | none =>
      (cacheSet cache e
        (some (.invalid ["Could not derive types from array, since a non-array was found instead"])),
       diags)
  | .toBase64 _ | .fromBase64 _ | .readFile _ =>
    -- lines 774-777: this version of the checker has no case for these
    -- builtins; they fall to the default arm
    (cacheSet cache e (some (.invalid ["Hit unknown type"])), [])

/-! ## Go strings.Split / strings.Join

Modelled from the spec: the builtins `fn::split` and `fn::join`
(`evaluateBuiltinSplit` / `evaluateBuiltinJoin`) delegate to Go's
`strings.Split` and `strings.Join`; their implementation file is not part
of the source tree, which contains only their tests.  Go strings are byte
strings; since split/join only compare delimiter bytes, they are modelled
over `List Char`.  `strings.Split` with a non-empty separator cuts at each
leftmost occurrence; with an empty separator it explodes the string.
`strings.Join` concatenates with the separator between elements. -/

/-- Index of the leftmost occurrence of `sep` in `s` (`strings.Index`). -/
def firstOccur (sep s : List Char) : Option Nat :=
  if sep.isPrefixOf s then some 0
  else
    match s with
    | [] => none
    | _ :: t => (firstOccur sep t).map (· + 1)

theorem firstOccur_bound (sep s : List Char) (i : Nat)
    (h : firstOccur sep s = some i) : i + sep.length ≤ s.length := by
  induction s generalizing i with
  | nil =>
    simp only [firstOccur] at h
    split at h
    · cases h
      rename_i hpre
      have : sep = [] := by
        cases sep with
        | nil => rfl
        | cons a t => simp [List.isPrefixOf] at hpre
      simp [this]
    · simp at h
  | cons c t ih =>
    simp only [firstOccur] at h
    split at h
    · cases h
      rename_i hpre
      have := List.IsPrefix.length_le (List.isPrefixOf_iff_prefix.mp hpre)
      simpa using this
    · simp only [Option.map_eq_some'] at h
      obtain ⟨j, hj, rfl⟩ := h
      have := ih j hj
      simp
      omega

theorem firstOccur_isPrefix (sep s : List Char) (i : Nat)
    (h : firstOccur sep s = some i) : sep.isPrefixOf (s.drop i) := by
  induction s generalizing i with
  | nil =>
    simp only [firstOccur] at h
    split at h
    · rename_i hpre
      cases h
      simpa using hpre
    · simp at h
  | cons c t ih =>
    simp only [firstOccur] at h
    split at h
    · rename_i hpre
      cases h
      simpa using hpre
    · simp only [Option.map_eq_some'] at h
      obtain ⟨j, hj, rfl⟩ := h
      simpa using ih j hj

/-- `strings.Split`. -/
def splitGo (sep s : List Char) : List (List Char) :=
  if hs : sep.isEmpty then s.map (fun c => [c])
  else
    match hocc : firstOccur sep s with
    | none => [s]
    | some i => s.take i :: splitGo sep (s.drop (i + sep.length))
termination_by s.length
decreasing_by
  have hb := firstOccur_bound sep s i hocc
  have : 1 ≤ sep.length := by
    cases sep with
    | nil => simp at hs
    | cons a t => simp
  simp
  omega

/-- `strings.Join`. -/
def joinGo (sep : List Char) : List (List Char) → List Char
  | [] => []
  | [x] => x
  | x :: xs => x ++ sep ++ joinGo sep xs

/-- The builtins over `String` values (`fn::split`, `fn::join`). -/
def fnSplit (delimiter s : String) : List String :=
  (splitGo delimiter.data s.data).map String.mk

def fnJoin (delimiter : String) (values : List String) : String :=
  String.mk (joinGo delimiter.data (values.map String.data))

/-! ## Base64 and UTF-8

Modelled from the spec: `fn::toBase64` encodes the string's bytes with
standard base64; `fn::fromBase64` decodes and then fails unless the
decoded bytes are a valid UTF-8 string (`utf8.Valid`).  The builtin
implementations are absent from the source tree (only their tests are
present).  Go strings are byte sequences, modelled as `List Nat` with
bytes below 256; the decoder accepts exactly the canonical encodings
(correct `=` padding and zero trailing bits). -/

def b64chars : List Char :=
  "ABCDEFGHIJKLMNOPQRSTUVWXYZabcdefghijklmnopqrstuvwxyz0123456789+/".data

/-- Index of a character in a list (first occurrence). -/
def idxOf (l : List Char) (c : Char) : Option Nat :=
  match l with
  | [] => none
  | x :: rest => if x = c then some 0 else (idxOf rest c).map (· + 1)

def b64val (c : Char) : Option Nat := idxOf b64chars c

def b64char (v : Nat) : Char := b64chars.getD v 'A'

/-- Base64-encode a byte sequence (standard alphabet, with padding). -/
def b64encode (bs : List Nat) : List Char :=
  match bs with
  | [] => []
  | [b0] => [b64char (b0 / 4), b64char (b0 % 4 * 16), '=', '=']
  | [b0, b1] =>
    [b64char (b0 / 4), b64char (b0 % 4 * 16 + b1 / 16), b64char (b1 % 16 * 4), '=']
  | b0 :: b1 :: b2 :: rest =>
    b64char (b0 / 4) :: b64char (b0 % 4 * 16 + b1 / 16) ::
      b64char (b1 % 16 * 4 + b2 / 64) :: b64char (b2 % 64) :: b64encode rest

/-- Base64-decode; `none` on anything but a canonical encoding. -/
def b64decode (cs : List Char) : Option (List Nat) :=
  match cs with
  | [] => some []
  | c0 :: c1 :: c2 :: c3 :: rest =>
    match b64val c0, b64val c1 with
    | some v0, some v1 =>
      if c2 = '=' then
        if c3 = '=' then
          if rest = [] ∧ v1 % 16 = 0 then some [v0 * 4 + v1 / 16] else none
        else none
      else if c3 = '=' then
        match b64val c2 with
        | some v2 =>
          if rest = [] ∧ v2 % 4 = 0 then
            some [v0 * 4 + v1 / 16, v1 % 16 * 16 + v2 / 4]
          else none
        | none => none
      else
        match b64val c2, b64val c3 with
        | some v2, some v3 =>
          (b64decode rest).map
            (fun bs => (v0 * 4 + v1 / 16) :: (v1 % 16 * 16 + v2 / 4) ::
              (v2 % 4 * 64 + v3) :: bs)
        | _, _ => none
    | _, _ => none
  | _ => none

/-- Is a byte a UTF-8 continuation byte (`0x80-0xBF`)? -/
def utf8cont (b : Nat) : Bool := 0x80 ≤ b ∧ b ≤ 0xBF

/-- `utf8.Valid`: the bytes are a well-formed UTF-8 encoding (no overlong
forms, no surrogates, no code points beyond U+10FFFF). -/
def utf8Valid (bs : List Nat) : Bool :=
  match bs with
  | [] => true
  | b0 :: rest =>
    if b0 ≤ 0x7F then utf8Valid rest
    else if 0xC2 ≤ b0 ∧ b0 ≤ 0xDF then
      match rest with
      | b1 :: r => utf8cont b1 && utf8Valid r
      | [] => false
    else if b0 = 0xE0 then
      match rest with
      | b1 :: b2 :: r => (0xA0 ≤ b1 && b1 ≤ 0xBF) && utf8cont b2 && utf8Valid r
      | _ => false
    else if (0xE1 ≤ b0 ∧ b0 ≤ 0xEC) ∨ b0 = 0xEE ∨ b0 = 0xEF then
      match rest with
      | b1 :: b2 :: r => utf8cont b1 && utf8cont b2 && utf8Valid r
      | _ => false
    else if b0 = 0xED then
      match rest with
      | b1 :: b2 :: r => (0x80 ≤ b1 && b1 ≤ 0x9F) && utf8cont b2 && utf8Valid r
      | _ => false
    else if b0 = 0xF0 then
      match rest with
      | b1 :: b2 :: b3 :: r =>
        (0x90 ≤ b1 && b1 ≤ 0xBF) && utf8cont b2 && utf8cont b3 && utf8Valid r
      | _ => false
    else if 0xF1 ≤ b0 ∧ b0 ≤ 0xF3 then
      match rest with
      | b1 :: b2 :: b3 :: r => utf8cont b1 && utf8cont b2 && utf8cont b3 && utf8Valid r
      | _ => false
    else if b0 = 0xF4 then
      match rest with
      | b1 :: b2 :: b3 :: r =>
        (0x80 ≤ b1 && b1 ≤ 0x8F) && utf8cont b2 && utf8cont b3 && utf8Valid r
      | _ => false
    else false

/-- `fn::fromBase64`: decode, then require valid UTF-8; the value of the
resulting Go string is the decoded byte sequence. -/
def fnFromBase64 (s : String) : Option (List Nat) :=
  match b64decode s.data with
  | none => none
  | some bs => if utf8Valid bs then some bs else none

/-- `fn::toBase64` applied to a string holding the given bytes. -/
def fnToBase64 (bs : List Nat) : String := String.mk (b64encode bs)

/-! ## resolveResource (package resolution source, lines 204-252)

`resourcePackage` wraps a `*schema.Package`.  `GetResource` looks a
resource up by its canonical token, so the package is modelled by its
name, its provider resource token and the list of canonical tokens it
defines.  The third-label lower-camel-casing uses the external
`strcase.ToLowerCamel` library, taken here as a parameter. -/

structure SchemaPackage where
  name : String
  providerToken : String
  resources : List String

/-- `schema.Package.GetResource` success test. -/
def getResourceFound (p : SchemaPackage) (tok : String) : Bool :=
  p.resources.contains tok

/-- `resourcePackage.ResolveResource` (lines 212-252). -/
def resolveResource (lowerCamel : String → String) (p : SchemaPackage)
    (typeName : String) : Except String String :=
  match fnSplit ":" typeName with
  | [pkgPart, namePart] =>
    -- no provider special case: it requires three labels (lines 219-224)
    if getResourceFound p typeName then .ok typeName
    else
      -- `$pkg:type` expands to `$pkg:index:type` (lines 233-239)
      let alternate := pkgPart ++ ":index:" ++ namePart
      if getResourceFound p alternate then .ok alternate
      else
        -- the expanded parts then take the legacy form (lines 243-249)
        let legacy := pkgPart ++ ":index/" ++ lowerCamel namePart ++ ":" ++ namePart
        if getResourceFound p legacy then .ok legacy
        else
          .error ("unable to find resource type " ++ typeName ++
            " in resource provider " ++ p.name)
  | [a, b, c] =>
    if a = "pulumi" ∧ b = "providers" ∧ c = p.name then .ok p.providerToken
    else if getResourceFound p typeName then .ok typeName
    else
      let legacy := a ++ ":" ++ b ++ "/" ++ lowerCamel c ++ ":" ++ c
      if getResourceFound p legacy then .ok legacy
      else
        .error ("unable to find resource type " ++ typeName ++
          " in resource provider " ++ p.name)
  | _ => .error ("invalid type token " ++ typeName)

/-! ## Runner diagnostics (spec-modelled)

Modelled from the spec: the runner's `syntax.Diagnostics` value and its
`Error()` rendering are not part of the source tree (only tests are).
Per the spec, diagnostics of both severities are "concatenated
monotonically" into a single collection which the runner returns; an empty
collection renders as "no diagnostics", and a non-empty one renders each
diagnostic as "<file:pos>: <summary>; " in order, as the tests show for
`TestEvaluateMissingError`. -/

structure RunDiag where
  severity : Severity
  pos : String
  summary : String

def RunDiag.isError (d : RunDiag) : Bool :=
  match d.severity with
  | .error => true
  | .warning => false

/-- The concatenation of the rendered diagnostics. -/
def diagsConcat : List RunDiag → String
  | [] => ""
  | d :: rest => d.pos ++ ": " ++ d.summary ++ "; " ++ diagsConcat rest

/-- `syntax.Diagnostics.Error()`. -/
def diagnosticsError (ds : List RunDiag) : String :=
  if ds.isEmpty then "no diagnostics"
  else diagsConcat ds

/-- `syntax.Diagnostics.HasErrors()`. -/
def diagnosticsHasErrors (ds : List RunDiag) : Bool :=
  ds.any RunDiag.isError

/-! ## Shared lemmas -/

theorem unwrapType_idem (t : SType) : unwrapType (unwrapType t) = unwrapType t := by
  induction t using unwrapType.induct <;> simp [unwrapType] <;> assumption

theorem unwrapType_ne_optional (t e : SType) : unwrapType t ≠ .optionalType e := by
  intro hc
  have h1 := unwrapType_idem t
  rw [hc] at h1
  have h2 : unwrapType (SType.optionalType e) = unwrapType e := by simp [unwrapType]
  rw [h2] at h1
  have h3 := sizeOf_unwrapType_le e
  rw [h1] at h3
  simp at h3

theorem isAssignableU_invalid_left (ds : List String) (t : SType) :
    isAssignableU (.invalid ds) t = none := by
  simp [isAssignableU]

theorem isAssignableU_invalid_right (t : SType) (ds : List String) :
    isAssignableU t (.invalid ds) = none := by
  cases t <;> simp [isAssignableU]

theorem fromUnionReasons_nil_iff (elems : List SType) (tgt : SType) :
    fromUnionReasons elems tgt = [] ↔ ∀ s ∈ elems, isAssignable s tgt = none := by
  induction elems with
  | nil => simp [fromUnionReasons]
  | cons s rest ih =>
    rw [fromUnionReasons]
    cases h : isAssignable s tgt with
    | none => simp [h, ih]
    | some r => simp [h]

theorem toUnionReasons_none_iff (fromT : SType) (elems : List SType) :
    toUnionReasons fromT elems = none ↔ ∃ s ∈ elems, isAssignable fromT s = none := by
  induction elems with
  | nil => simp [toUnionReasons]
  | cons s rest ih =>
    rw [toUnionReasons]
    cases h : isAssignable fromT s with
    | none => simp [h]
    | some r =>
      cases hr : toUnionReasons fromT rest with
      | none => simp [h, hr, ih.mp hr]
      | some rs =>
        simp only [hr] at ih
        simp [h, hr]
        intro x hx
        cases hax : isAssignable fromT x with
        | none =>
          exfalso
          have : ∃ s ∈ rest, isAssignable fromT s = none := ⟨x, hx, hax⟩
          simp [this] at ih
        | some r2 => simp

/-! ## Claim C10 -/

/-- C10: if either side of `isAssignable` is the invalid type, the
assignment is accepted without a new reason, so an expression that already
failed type checking produces no secondary assignability diagnostic
(analyser.go lines 167-174). -/
theorem c10_invalid_short_circuits (fromT toT : SType)
    (h : (∃ ds, fromT = .invalid ds) ∨ (∃ ds, toT = .invalid ds)) :
    isAssignable fromT toT = none := by
  rcases h with ⟨ds, rfl⟩ | ⟨ds, rfl⟩
  · rw [isAssignable]
    simp [unwrapType, isAssignableU_invalid_left]
  · rw [isAssignable]
    simp [unwrapType, isAssignableU_invalid_right]

theorem c10_witness :
    ((∃ ds, (SType.invalid [] : SType) = .invalid ds) ∨
      (∃ ds, (SType.boolType : SType) = .invalid ds)) ∧
    isAssignable (.invalid []) .boolType = none :=
  ⟨Or.inl ⟨[], rfl⟩, c10_invalid_short_circuits (.invalid []) .boolType (Or.inl ⟨[], rfl⟩)⟩

/-! ## Claim C1 -/

/-- C1 counterexample: the claim says a target type `integer` never
accepts a `number` source, but `isAssignable` accepts it — in the source,
`case schema.NumberType, schema.IntType` share one arm allowing both
numeric sources (analyser.go line 216-217). -/
theorem c1_counterexample_number_assignable_to_int :
    isAssignable .numberType .intType = none := by
  rw [isAssignable]
  simp [unwrapType, isAssignableU, isPrimitiveType]

/-- C1 (amended): a target type `integer` accepts exactly the sources a
target type `number` accepts — the two targets share one arm of
`isAssignable`; in particular a config parameter with declared type
integer and a number-typed default is not reported by `isAssignable`
(and `typeConfig` never compares the default's type against the declared
type at all). -/
theorem c1_int_number_targets_agree : ∀ f : SType,
    (isAssignable f .intType).isNone = (isAssignable f .numberType).isNone := by
  have main : ∀ n (f : SType), sizeOf f ≤ n →
      (isAssignable f .intType).isNone = (isAssignable f .numberType).isNone := by
    intro n
    induction n with
    | zero =>
      intro f hf
      cases f <;> simp at hf
    | succ n ih =>
      intro f hf
      rw [isAssignable, isAssignable]
      simp only [unwrapType]
      cases h : unwrapType f with
      | unionType es =>
        have hsz : sizeOf es < sizeOf f := by
          have h1 := sizeOf_unwrapType_le f
          rw [h] at h1
          simp at h1
          omega
        have helem : ∀ s ∈ es, (isAssignable s .intType).isNone =
            (isAssignable s .numberType).isNone := by
          intro s hs
          have := List.sizeOf_lt_of_mem hs
          exact ih s (by omega)
        simp only [isAssignableU]
        cases hint : fromUnionReasons es .intType with
        | nil =>
          have : fromUnionReasons es .numberType = [] := by
            rw [fromUnionReasons_nil_iff] at hint ⊢
            intro s hs
            have h1 := helem s hs
            have h2 := hint s hs
            simp [h2] at h1
            cases h3 : isAssignable s .numberType with
            | none => rfl
            | some r => simp [h3] at h1
          simp [hint, this]
        | cons r rs =>
          have : fromUnionReasons es .numberType ≠ [] := by
            intro hc
            rw [fromUnionReasons_nil_iff] at hc
            have : fromUnionReasons es .intType = [] := by
              rw [fromUnionReasons_nil_iff]
              intro s hs
              have h1 := helem s hs
              have h2 := hc s hs
              simp [h2] at h1
              cases h3 : isAssignable s .intType with
              | none => rfl
              | some r => simp [h3] at h1
            rw [this] at hint
            exact List.noConfusion hint
          cases hnum : fromUnionReasons es .numberType with
          | nil => exact absurd hnum this
          | cons r2 rs2 => simp [hint, hnum, isAssignableU]
      | invalid ds => simp [isAssignableU]
      | anyType => simp [isAssignableU, isPrimitiveType, unwrapType]
      | stringType => simp [isAssignableU, isPrimitiveType, unwrapType]
      | intType => simp [isAssignableU, isPrimitiveType, unwrapType]
      | numberType => simp [isAssignableU, isPrimitiveType, unwrapType]
      | boolType => simp [isAssignableU, isPrimitiveType, unwrapType]
      | assetType => simp [isAssignableU, isPrimitiveType, unwrapType]
      | archiveType => simp [isAssignableU, isPrimitiveType, unwrapType]
      | arrayType e => simp [isAssignableU, isPrimitiveType, unwrapType]
      | mapType e => simp [isAssignableU, isPrimitiveType, unwrapType]
      | objectType tok props => simp [isAssignableU, isPrimitiveType, unwrapType]
      | resourceType tok props => simp [isAssignableU, isPrimitiveType, unwrapType]
      | enumType tok e => simp [isAssignableU, isPrimitiveType, unwrapType]
      | tokenType tok u => simp [isAssignableU, isPrimitiveType, unwrapType]
      | optionalType e => simp [isAssignableU, isPrimitiveType, unwrapType]
  exact fun f => main (sizeOf f) f le_rfl

/-! ## Claim C5 -/

/-- C5 counterexample: the claim's "any-resource token with empty token"
clause is absent from this version of the source — a resource target with
an empty token does not accept a resource source with a different token
(analyser.go lines 275-277 compare tokens only). -/
theorem c5_counterexample_empty_token_not_any_resource :
    isAssignable (.resourceType "a" []) (.resourceType "" []) ≠ none := by
  rw [isAssignable]
  simp [unwrapType, isAssignableU, isPrimitiveType]

/-- C5 (amended): for a source that is (after unwrapping) neither invalid
nor a union and a resource-type target, `isAssignable` succeeds exactly
when the source is a resource type whose token equals the target's token;
there is no exception for an empty target token. -/
theorem c5_resource_assignability_token_equality (fromT : SType) (tok : String)
    (props : List (String × SType))
    (hninv : ∀ ds, unwrapType fromT ≠ .invalid ds)
    (hnun : ∀ es, unwrapType fromT ≠ .unionType es) :
    (isAssignable fromT (.resourceType tok props) = none ↔
      ∃ ftok fprops, unwrapType fromT = .resourceType ftok fprops ∧ tok = ftok) := by
  rw [isAssignable]
  simp only [unwrapType]
  cases h : unwrapType fromT with
  | invalid ds => exact absurd h (hninv ds)
  | unionType es => exact absurd h (hnun es)
  | resourceType ftok fprops =>
    simp only [isAssignableU, isPrimitiveType, unwrapType]
    by_cases he : tok = ftok <;> simp [he]
  | anyType => simp [isAssignableU, isPrimitiveType, unwrapType]
  | stringType => simp [isAssignableU, isPrimitiveType, unwrapType]
  | intType => simp [isAssignableU, isPrimitiveType, unwrapType]
  | numberType => simp [isAssignableU, isPrimitiveType, unwrapType]
  | boolType => simp [isAssignableU, isPrimitiveType, unwrapType]
  | assetType => simp [isAssignableU, isPrimitiveType, unwrapType]
  | archiveType => simp [isAssignableU, isPrimitiveType, unwrapType]
  | arrayType e => simp [isAssignableU, isPrimitiveType, unwrapType]
  | mapType e => simp [isAssignableU, isPrimitiveType, unwrapType]
  | objectType t2 p2 => simp [isAssignableU, isPrimitiveType, unwrapType]
  | enumType t2 e => simp [isAssignableU, isPrimitiveType, unwrapType]
  | tokenType t2 u => simp [isAssignableU, isPrimitiveType, unwrapType]
  | optionalType e => simp [isAssignableU, isPrimitiveType, unwrapType]

theorem c5_witness :
    isAssignable (.resourceType "t" []) (.resourceType "t" []) = none := by
  have h := c5_resource_assignability_token_equality (.resourceType "t" []) "t" []
    (by intro ds; simp [unwrapType]) (by intro es; simp [unwrapType])
  exact h.mpr ⟨"t", [], by simp [unwrapType], rfl⟩

/-! ## Claim C4 -/

/-- Is a type the invalid type? -/
def SType.isInvalid : SType → Bool
  | .invalid _ => true
  | _ => false

theorem unionBranches_types (elems : List SType) (rn : String)
    (accs : List Accessor) :
    (unionBranches elems rn accs).1 =
      (elems.map (fun s => (typePropertyAccess s rn accs).1)).filter
        (fun t => !t.isInvalid) := by
  induction elems with
  | nil => simp [unionBranches]
  | cons s rest ih =>
    rw [unionBranches]
    cases h : (typePropertyAccess s rn accs).1 <;>
      simp [h, ih, SType.isInvalid]

theorem unionBranches_errs_nil_iff (elems : List SType) (rn : String)
    (accs : List Accessor) :
    (unionBranches elems rn accs).2 = [] ↔
      ∀ s ∈ elems, (typePropertyAccess s rn accs).2 = [] := by
  induction elems with
  | nil => simp [unionBranches]
  | cons s rest ih =>
    rw [unionBranches]
    simp [ih]

/-- C4 counterexample: in a union root where one branch fails and another
succeeds, the source still reports the "could be a type that does not
support access" error (it fires whenever `errs` is non-empty, lines
586-597) — the claim's "only when all branches fail" is false.  Here the
string branch fails but the object branch resolves `.foo` to `string`. -/
theorem c4_counterexample_single_branch_failure_reports :
    (typePropertyAccess
        (.unionType [.stringType, .objectType "pulumi:adhock:t" [("foo", .stringType, true)]])
        "start" [.name "foo"]).2 ≠ [] ∧
      typePropertyAccess (.objectType "pulumi:adhock:t" [("foo", .stringType, true)])
        "start" [.name "foo"] = (.stringType, []) := by
  constructor
  · simp [typePropertyAccess, unwrapType, unionBranches, dedupTypes, insertPossibility,
      steq, lastPropType, nonExistantFieldMessage]
  · simp [typePropertyAccess, unwrapType, lastPropType]

/-- C4 (amended): for a union root every branch is tried; an error is
reported exactly when at least one branch reports one (not only when all
fail), and when no branch reports an error the result is the single
distinct non-invalid branch result type, or the union of the distinct
non-invalid branch result types. -/
theorem c4_union_access_error_iff_some_branch_fails (elems : List SType)
    (rn : String) (a : Accessor) (rest : List Accessor) :
    ((typePropertyAccess (.unionType elems) rn (a :: rest)).2 = [] ↔
      ∀ s ∈ elems, (typePropertyAccess s rn (a :: rest)).2 = []) ∧
    ((typePropertyAccess (.unionType elems) rn (a :: rest)).2 = [] →
      (typePropertyAccess (.unionType elems) rn (a :: rest)).1 =
        match dedupTypes
          ((elems.map (fun s => (typePropertyAccess s rn (a :: rest)).1)).filter
            (fun t => !t.isInvalid)) with
        | [t] => t
        | arr => .unionType arr) ∧
    ((typePropertyAccess (.unionType elems) rn (a :: rest)).2 ≠ [] →
      (typePropertyAccess (.unionType elems) rn (a :: rest)).1 = .invalid []) := by
  rw [typePropertyAccess]
  rw [unionBranches_types]
  cases herr : (unionBranches elems rn (a :: rest)).2 with
  | nil =>
    have h1 := (unionBranches_errs_nil_iff elems rn (a :: rest)).mp herr
    cases hd : dedupTypes
        ((elems.map (fun s => (typePropertyAccess s rn (a :: rest)).1)).filter
          (fun t => !t.isInvalid)) with
    | nil =>
      simp [herr, hd]
      try exact h1
    | cons t ts =>
      cases ts with
      | nil =>
        simp [herr, hd]
        try exact h1
      | cons t2 ts2 =>
        simp [herr, hd]
        try exact h1
  | cons e es =>
    have h1 : ¬ ((unionBranches elems rn (a :: rest)).2 = []) := by simp [herr]
    rw [unionBranches_errs_nil_iff] at h1
    constructor
    · simp only [herr]
      constructor
      · intro hc
        exact absurd hc (by simp)
      · intro hall
        exact absurd hall h1
    · constructor
      · intro hc
        exact absurd hc (by simp [herr])
      · intro _
        simp [herr]

/-! ## Claim C2 -/

def nodupNames : List (String × SType × Bool) → Bool
  | [] => true
  | (n, _, _) :: rest => !(rest.any (fun q => q.1 == n)) && nodupNames rest

mutual

def reflSafe : SType → Bool
  | .invalid _ => true
  | .anyType | .stringType | .intType | .numberType | .boolType
  | .assetType | .archiveType => true
  | .arrayType e => reflSafe e
  | .mapType e => reflSafe e
  | .objectType _ props => nodupNames props && propsReflSafe props
  | .unionType es => listReflSafe es
  | .resourceType _ _ => true
  | .enumType _ _ => false
  | .tokenType _ _ => false
  | .optionalType e => reflSafe e
termination_by t => sizeOf t

def propsReflSafe : List (String × SType × Bool) → Bool
  | [] => true
  | (_, t, _) :: rest => reflSafe t && propsReflSafe rest
termination_by l => sizeOf l

def listReflSafe : List SType → Bool
  | [] => true
  | t :: rest => reflSafe t && listReflSafe rest
termination_by l => sizeOf l

end

theorem reflSafe_unwrap : ∀ t, reflSafe (unwrapType t) = reflSafe t
  | .optionalType e => by
    have ih := reflSafe_unwrap e
    have h1 : unwrapType (SType.optionalType e) = unwrapType e := rfl
    rw [h1, ih]
    simp [reflSafe]
  | .invalid _ => rfl
  | .anyType => rfl
  | .stringType => rfl
  | .intType => rfl
  | .numberType => rfl
  | .boolType => rfl
  | .assetType => rfl
  | .archiveType => rfl
  | .arrayType _ => rfl
  | .mapType _ => rfl
  | .objectType _ _ => rfl
  | .unionType _ => rfl
  | .resourceType _ _ => rfl
  | .enumType _ _ => rfl
  | .tokenType _ _ => rfl

theorem listReflSafe_mem (es : List SType) (e : SType) (h : listReflSafe es = true)
    (hm : e ∈ es) : reflSafe e = true := by
  induction es with
  | nil => simp at hm
  | cons a rest ih =>
    rw [listReflSafe] at h
    simp at h
    cases hm with
    | head => exact h.1
    | tail _ hm => exact ih h.2 hm

theorem propsReflSafe_mem (props : List (String × SType × Bool))
    (p : String × SType × Bool) (h : propsReflSafe props = true) (hm : p ∈ props) :
    reflSafe p.2.1 = true := by
  induction props with
  | nil => simp at hm
  | cons a rest ih =>
    obtain ⟨n, t, r⟩ := a
    rw [propsReflSafe] at h
    simp at h
    cases hm with
    | head => exact h.1
    | tail _ hm => exact ih h.2 hm

theorem nodup_propertyLookup (props : List (String × SType × Bool))
    (p : String × SType × Bool) (hnd : nodupNames props = true) (hm : p ∈ props) :
    propertyLookup props p.1 = some p := by
  induction props with
  | nil => simp at hm
  | cons a rest ih =>
    obtain ⟨n, t, r⟩ := a
    rw [nodupNames] at hnd
    cases hm with
    | head => simp [propertyLookup]
    | tail _ hm =>
      simp only [Bool.and_eq_true, Bool.not_eq_true'] at hnd
      have hne : ¬ (n = p.1) := by
        intro hc
        have : rest.any (fun q => q.1 == n) = true :=
          List.any_eq_true.mpr ⟨p, hm, by simp [hc]⟩
        rw [this] at hnd
        exact Bool.noConfusion hnd.1
      rw [propertyLookup]
      simp only [hne, if_false]
      exact ih hnd.2 hm

/-- Union-member reachability: `UMem x t` holds when `x` is `t` itself or
an element (recursively) of `t`'s unwrapped union structure. -/
inductive UMem : SType → SType → Prop where
  | base (t : SType) : UMem t t
  | step {x e : SType} {es : List SType} (t : SType) :
      unwrapType t = .unionType es → e ∈ es → UMem x e → UMem x t

theorem UMem_trans {x y z : SType} (h1 : UMem x y) (h2 : UMem y z) : UMem x z := by
  induction h2 with
  | base => exact h1
  | step t hunw hmem hsub ih => exact .step t hunw hmem ih

theorem reflSafe_of_UMem {x t : SType} (h : UMem x t) (hs : reflSafe t = true) :
    reflSafe x = true := by
  induction h with
  | base => exact hs
  | step t hunw hmem hsub ih =>
    apply ih
    have h1 : reflSafe (unwrapType t) = true := by rw [reflSafe_unwrap]; exact hs
    rw [hunw] at h1
    rw [reflSafe] at h1
    exact listReflSafe_mem _ _ h1 hmem

theorem objFailures_nil_of (fromProps toProps : List (String × SType × Bool))
    (h : ∀ p ∈ toProps, ∃ q, propertyLookup fromProps p.1 = some q ∧
      isAssignable q.2.1 p.2.1 = none) :
    objFailures fromProps toProps = [] := by
  induction toProps with
  | nil => rw [objFailures]
  | cons p rest ih =>
    obtain ⟨n, pt, req⟩ := p
    obtain ⟨q, hq, hassign⟩ := h (n, pt, req) (by simp)
    have hq2 : propertyLookup fromProps n = some q := hq
    have hassign2 : isAssignable q.2.1 pt = none := hassign
    rw [objFailures]
    split
    · rename_i heq
      rw [hq2] at heq
      exact Option.noConfusion heq
    · rename_i fromProp heq
      rw [hq2] at heq
      injection heq with h2
      subst h2
      simp only [hassign2]
      exact ih (fun p hp => h p (by simp [hp]))

theorem isAssignable_to_invalid (s : SType) (ds : List String) :
    isAssignable s (.invalid ds) = none := by
  rw [isAssignable]
  simp [unwrapType, isAssignableU_invalid_right]

theorem fromUnionReasons_invalid (es : List SType) (ds : List String) :
    fromUnionReasons es (.invalid ds) = [] := by
  rw [fromUnionReasons_nil_iff]
  intro s _
  exact isAssignable_to_invalid s ds

theorem isAssignableU_from_union_none_iff (es : List SType) (ut : SType) :
    (isAssignableU (.unionType es) ut = none ↔ fromUnionReasons es ut = []) := by
  cases ut <;>
    simp only [isAssignableU] <;>
    first
    | simp [fromUnionReasons_invalid]
    | (split <;> simp_all)

theorem isAssignableU_to_union_none_iff (f : SType) (es : List SType)
    (hninv : ∀ ds, f ≠ .invalid ds) (hnun : ∀ es2, f ≠ .unionType es2) :
    (isAssignableU f (.unionType es) = none ↔ toUnionReasons f es = none) := by
  cases f <;>
    first
    | exact absurd rfl (hninv _)
    | exact absurd rfl (hnun _)
    | (simp only [isAssignableU, isPrimitiveType, unwrapType]
       split
       · simp_all
       · split <;> simp_all)

theorem stypeSizeOfPos (t : SType) : 1 ≤ sizeOf t := by
  cases t <;> simp <;> omega

theorem isAssignable_unwrap_left (x e : SType) :
    isAssignable (unwrapType x) e = isAssignable x e := by
  rw [isAssignable, isAssignable, unwrapType_idem]

theorem isAssignable_unwrap_right (x e : SType) :
    isAssignable x (unwrapType e) = isAssignable x e := by
  rw [isAssignable, isAssignable, unwrapType_idem]

theorem UMem_elim {x t : SType} (h : UMem x t) :
    x = t ∨ ∃ es e, unwrapType t = .unionType es ∧ e ∈ es ∧ UMem x e := by
  cases h with
  | base => exact Or.inl rfl
  | step h1 h2 h3 => exact Or.inr ⟨_, _, h2, h3, by assumption⟩

theorem isAssignable_refl_master : ∀ n (x t : SType), sizeOf x + sizeOf t ≤ n →
    reflSafe t = true → UMem x t → isAssignable x t = none := by
  intro n
  induction n with
  | zero =>
    intro x t hle _ _
    have h1 := stypeSizeOfPos x
    have h2 := stypeSizeOfPos t
    omega
  | succ n ih =>
    intro x t hle hsafe hmem
    rw [isAssignable]
    rcases UMem_elim hmem with rfl | ⟨es, e, hunw, hein, hxe⟩
    · cases hx : unwrapType x
      case invalid ds => exact isAssignableU_invalid_left ds _
      case unionType es =>
        rw [isAssignableU_from_union_none_iff, fromUnionReasons_nil_iff]
        intro s hs
        rw [← hx, isAssignable_unwrap_right]
        have hsz : sizeOf s < sizeOf x := by
          have h1 := List.sizeOf_lt_of_mem hs
          have h2 := sizeOf_unwrapType_le x
          rw [hx] at h2
          simp at h2
          omega
        exact ih s x (by omega) hsafe (.step x hx hs (.base s))
      case arrayType e =>
        have hsz : 1 + sizeOf e ≤ sizeOf x := by
          have h2 := sizeOf_unwrapType_le x
          rw [hx] at h2
          simp at h2
          omega
        have hsafee : reflSafe e = true := by
          have h1 : reflSafe (unwrapType x) = true := by rw [reflSafe_unwrap]; exact hsafe
          rw [hx] at h1
          rw [reflSafe] at h1
          exact h1
        have he : isAssignable e e = none := ih e e (by omega) hsafee (.base e)
        simp [isAssignableU, isPrimitiveType, unwrapType, he]
      case mapType e =>
        have hsz : 1 + sizeOf e ≤ sizeOf x := by
          have h2 := sizeOf_unwrapType_le x
          rw [hx] at h2
          simp at h2
          omega
        have hsafee : reflSafe e = true := by
          have h1 : reflSafe (unwrapType x) = true := by rw [reflSafe_unwrap]; exact hsafe
          rw [hx] at h1
          rw [reflSafe] at h1
          exact h1
        have he : isAssignable e e = none := ih e e (by omega) hsafee (.base e)
        simp [isAssignableU, isPrimitiveType, unwrapType, he]
      case objectType tok props =>
        have h1 : reflSafe (unwrapType x) = true := by rw [reflSafe_unwrap]; exact hsafe
        rw [hx] at h1
        rw [reflSafe] at h1
        simp only [Bool.and_eq_true] at h1
        have hxsz : 1 + sizeOf tok + sizeOf props ≤ sizeOf x := by
          have h2 := sizeOf_unwrapType_le x
          rw [hx] at h2
          simp at h2
          omega
        have hprop : ∀ p ∈ props, isAssignable p.2.1 p.2.1 = none := by
          intro p hp
          have hmem2 := propsReflSafe_mem props p h1.2 hp
          have hsz := List.sizeOf_lt_of_mem hp
          obtain ⟨pn, pt, pr⟩ := p
          simp at hsz hmem2
          exact ih pt pt (by omega) hmem2 (.base pt)
        have hnil := objFailures_nil_of props props
          (fun p hp => ⟨p, nodup_propertyLookup props p h1.1 hp, hprop p hp⟩)
        simp [isAssignableU, isPrimitiveType, unwrapType, hnil]
      case enumType tok e =>
        have h1 : reflSafe (unwrapType x) = true := by rw [reflSafe_unwrap]; exact hsafe
        rw [hx] at h1
        rw [reflSafe] at h1
        exact Bool.noConfusion h1
      case tokenType tok u =>
        have h1 : reflSafe (unwrapType x) = true := by rw [reflSafe_unwrap]; exact hsafe
        rw [hx] at h1
        rw [reflSafe] at h1
        exact Bool.noConfusion h1
      case optionalType e => exact absurd hx (unwrapType_ne_optional x e)
      all_goals simp [isAssignableU, isPrimitiveType, unwrapType, steq]
    · cases hx : unwrapType x
      case invalid ds => exact isAssignableU_invalid_left ds _
      case unionType es2 =>
        rw [isAssignableU_from_union_none_iff, fromUnionReasons_nil_iff]
        intro s hs
        rw [isAssignable_unwrap_right]
        have hsz : sizeOf s < sizeOf x := by
          have h1 := List.sizeOf_lt_of_mem hs
          have h2 := sizeOf_unwrapType_le x
          rw [hx] at h2
          simp at h2
          omega
        exact ih s t (by omega) hsafe
          (UMem_trans (.step x hx hs (.base s)) (.step t hunw hein hxe))
      all_goals (
        rw [hunw]
        rw [isAssignableU_to_union_none_iff _ _ (by intro ds h; exact SType.noConfusion h)
          (by intro es2 h; exact SType.noConfusion h)]
        rw [toUnionReasons_none_iff]
        refine ⟨e, hein, ?_⟩
        rw [← hx, isAssignable_unwrap_left]
        have hsz : sizeOf e < sizeOf t := by
          have h1 := List.sizeOf_lt_of_mem hein
          have h2 := sizeOf_unwrapType_le t
          rw [hunw] at h2
          simp at h2
          omega
        have hsafee : reflSafe e = true := by
          have h1 : reflSafe (unwrapType t) = true := by rw [reflSafe_unwrap]; exact hsafe
          rw [hunw] at h1
          rw [reflSafe] at h1
          exact listReflSafe_mem _ _ h1 hein
        exact ih x e (by omega) hsafee hxe)

def primTypes : List SType :=
  [.anyType, .stringType, .intType, .numberType, .boolType, .assetType, .archiveType]

/-- C2 counterexample: `isAssignable` is not reflexive on every non-invalid
type — an opaque token type without an underlying type is rejected against
itself with an internal "Unknown opaque type" reason (analyser.go lines
317-321); enum types against themselves fail similarly. -/
theorem c2_counterexample_token_not_reflexive :
    (∀ ds, (SType.tokenType "foo" none) ≠ SType.invalid ds) ∧
      isAssignable (.tokenType "foo" none) (.tokenType "foo" none) ≠ none := by
  constructor
  · intro ds h
    exact SType.noConfusion h
  · rw [isAssignable]
    simp [unwrapType, isAssignableU, isPrimitiveType]

/-- C2 (amended): `isAssignable` is reflexive on every type built without
enum types, opaque token types and objects with duplicate property names
(`reflSafe`), and transitive on the primitive types. -/
theorem c2_reflexive_safe_transitive_primitives :
    (∀ t : SType, reflSafe t = true → isAssignable t t = none) ∧
    (∀ a ∈ primTypes, ∀ b ∈ primTypes, ∀ c ∈ primTypes,
      isAssignable a b = none → isAssignable b c = none →
        isAssignable a c = none) := by
  constructor
  · exact fun t h =>
      isAssignable_refl_master (sizeOf t + sizeOf t) t t le_rfl h (.base t)
  · intro a ha b hb c hc hab hbc
    simp [primTypes] at ha hb hc
    rcases ha with rfl | rfl | rfl | rfl | rfl | rfl | rfl <;>
      rcases hb with rfl | rfl | rfl | rfl | rfl | rfl | rfl <;>
        rcases hc with rfl | rfl | rfl | rfl | rfl | rfl | rfl <;>
          simp_all [isAssignable, isAssignableU, unwrapType, isPrimitiveType, steq]

theorem c2_witness :
    isAssignable (.arrayType .stringType) (.arrayType .stringType) = none ∧
    isAssignable .intType .anyType = none := by
  constructor
  · exact c2_reflexive_safe_transitive_primitives.1 (.arrayType .stringType)
      (by simp [reflSafe])
  · exact c2_reflexive_safe_transitive_primitives.2 .intType (by simp [primTypes])
      .stringType (by simp [primTypes]) .anyType (by simp [primTypes])
      (by rw [isAssignable]; simp [unwrapType, isAssignableU, isPrimitiveType])
      (by rw [isAssignable]; simp [unwrapType, isAssignableU, isPrimitiveType])

/-! ## Claim C3 -/

set_option maxHeartbeats 1000000

theorem aeq_refl (a : Accessor) : aeq a a = true := by
  cases a <;> simp [aeq]

theorem aeqZip_refl (l : List Accessor) :
    (l.zip l).all (fun p => aeq p.1 p.2) = true := by
  induction l with
  | nil => simp
  | cons a rest ih => simp [ih, aeq_refl]

theorem eeqList_refl_of (l : List Expr) (h : ∀ x ∈ l, eeq x x = true) :
    eeqList l l = true := by
  induction l with
  | nil => rw [eeqList]
  | cons a rest ih =>
    rw [eeqList]
    simp [h a (by simp), ih (fun x hx => h x (by simp [hx]))]

theorem eeqEntries_refl_of (l : List (String × Expr))
    (h : ∀ x ∈ l, eeq x.2 x.2 = true) : eeqEntries l l = true := by
  induction l with
  | nil => rw [eeqEntries]
  | cons a rest ih =>
    obtain ⟨k, v⟩ := a
    rw [eeqEntries]
    simp [h (k, v) (by simp), ih (fun x hx => h x (by simp [hx]))]

theorem exprSizeOfPos (e : Expr) : 1 ≤ sizeOf e := by
  cases e <;> simp <;> omega


theorem eeq_refl (e : Expr) : eeq e e = true := by
  have main : ∀ n (e : Expr), sizeOf e ≤ n → eeq e e = true := by
    intro n
    induction n with
    | zero =>
      intro e hle
      have := exprSizeOfPos e
      omega
    | succ n ih =>
      intro e hle
      cases e with
      | list elements =>
        rw [eeq]
        apply eeqList_refl_of
        intro x hx
        have h1 := List.sizeOf_lt_of_mem hx
        apply ih x
        simp at hle
        omega
      | object entries =>
        rw [eeq]
        apply eeqEntries_refl_of
        intro x hx
        have h1 := List.sizeOf_lt_of_mem hx
        obtain ⟨k, v⟩ := x
        simp only [Prod.mk.sizeOf_spec] at h1
        apply ih v
        simp at hle
        omega
      | assetArchive args =>
        rw [eeq]
        apply eeqEntries_refl_of
        intro x hx
        have h1 := List.sizeOf_lt_of_mem hx
        obtain ⟨k, v⟩ := x
        simp only [Prod.mk.sizeOf_spec] at h1
        apply ih v
        simp at hle
        omega
      | invoke tok callArgs ret =>
        cases callArgs with
        | none => rw [eeq]; simp
        | some entries =>
          rw [eeq]
          simp only [beq_self_eq_true, Bool.true_and]
          apply eeqEntries_refl_of
          intro x hx
          have h1 := List.sizeOf_lt_of_mem hx
          obtain ⟨k, v⟩ := x
          simp only [Prod.mk.sizeOf_spec] at h1
          apply ih v
          simp at hle
          omega
      | symbol root accessors => rw [eeq]; simp [aeqZip_refl]
      | null => rw [eeq]
      | boolean b => rw [eeq]; simp
      | number p => rw [eeq]; simp
      | str s => rw [eeq]; simp
      | interpolate r => rw [eeq]; simp
      | fileArchive s => rw [eeq]; exact ih s (by simp at hle ⊢; omega)
      | remoteArchive s => rw [eeq]; exact ih s (by simp at hle ⊢; omega)
      | fileAsset s => rw [eeq]; exact ih s (by simp at hle ⊢; omega)
      | remoteAsset s => rw [eeq]; exact ih s (by simp at hle ⊢; omega)
      | strAsset s => rw [eeq]; exact ih s (by simp at hle ⊢; omega)
      | toJSON v => rw [eeq]; exact ih v (by simp at hle ⊢; omega)
      | secret v => rw [eeq]; exact ih v (by simp at hle ⊢; omega)
      | toBase64 v => rw [eeq]; exact ih v (by simp at hle ⊢; omega)
      | fromBase64 v => rw [eeq]; exact ih v (by simp at hle ⊢; omega)
      | readFile p => rw [eeq]; exact ih p (by simp at hle ⊢; omega)
      | join d v =>
        rw [eeq]
        simp at hle
        simp [ih d (by omega), ih v (by omega)]
      | split d s =>
        rw [eeq]
        simp at hle
        simp [ih d (by omega), ih s (by omega)]
      | select i v =>
        rw [eeq]
        simp at hle
        simp [ih i (by omega), ih v (by omega)]
  exact main (sizeOf e) e le_rfl

theorem cacheGet_set_self (c : ExprCache) (e : Expr) (v : Option SType) :
    cacheGet (cacheSet c e v) e = some v := by
  simp [cacheGet, cacheSet, eeq_refl e]

theorem typeExprLookup_set_self (c : ExprCache) (e : Expr) (t : SType) :
    typeExprLookup (cacheSet c e (some t)) e = some t := by
  simp [typeExprLookup, cacheGet_set_self]

/-- Does `typeExpr` fail to record a (non-nil) type for this expression?
True exactly for: an invoke whose token does not resolve, an invoke whose
`return` attribute matches no output, a secret whose operand has no cached
type (a nil is stored), and an accessor-less symbol whose root resolves to
a variable with no cached type (a nil is stored). -/
def storesNoType (env : TypeEnv) (cache : ExprCache) (e : Expr) : Bool :=
  match e with
  | .invoke tok _ ret =>
    match resolveFunctionHint env tok with
    | none => true
    | some hint =>
      match ret with
      | some r => (lastRetType ((hint.outputs.map (·.2)).getD []) r).isNone
      | none => false
  | .secret v => (typeExprLookup cache v).isNone
  | .symbol root accessors =>
    accessors.isEmpty && (rootTypeResolved env cache root).isNone
  | _ => false

theorem typeExprStep_caches_aux (env : TypeEnv) (cache : ExprCache) (e : Expr)
    (h : storesNoType env cache e = false) :
    (typeExprLookup (typeExprStep env cache e).1 e).isSome = true := by
  cases e with
  | invoke tok callArgs ret =>
    rw [typeExprStep, typeInvoke]
    rw [storesNoType] at h
    cases hres : resolveFunctionHint env tok with
    | none => simp [hres] at h
    | some hint =>
      simp only [hres] at h ⊢
      cases ret with
      | some r =>
        simp only at h
        cases hrt : lastRetType ((hint.outputs.map (·.2)).getD []) r with
        | none => simp [hrt] at h
        | some returnType => simp [hrt, typeExprLookup_set_self]
      | none =>
        cases hout : hint.outputs with
        | none => simp [hout, typeExprLookup_set_self]
        | some o => simp [hout, typeExprLookup_set_self]
  | symbol root accessors =>
    rw [typeExprStep, typeSymbol]
    rw [storesNoType] at h
    cases hroot : rootTypeResolved env cache root with
    | some typ => simp [hroot, typeExprLookup_set_self]
    | none =>
      simp only [hroot, Option.isNone_none, Bool.and_true, List.isEmpty_eq_true] at h
      cases accessors with
      | nil => simp at h
      | cons a rest => simp [typeExprLookup_set_self]
  | secret v =>
    rw [typeExprStep]
    rw [storesNoType] at h
    cases hv : typeExprLookup cache v with
    | none => simp [hv] at h
    | some t => simp [hv, typeExprLookup_set_self]
  | str s => rw [typeExprStep]; simp [typeExprLookup_set_self]
  | null => rw [typeExprStep]; simp [typeExprLookup_set_self]
  | boolean b => rw [typeExprStep]; simp [typeExprLookup_set_self]
  | number p => rw [typeExprStep]; simp [typeExprLookup_set_self]
  | interpolate r => rw [typeExprStep]; simp [typeExprLookup_set_self]
  | list elements => rw [typeExprStep]; simp [typeExprLookup_set_self]
  | object entries => rw [typeExprStep]; simp [typeExprLookup_set_self]
  | assetArchive args => rw [typeExprStep]; simp [typeExprLookup_set_self]
  | fileArchive s => rw [typeExprStep]; simp [typeExprLookup_set_self]
  | remoteArchive s => rw [typeExprStep]; simp [typeExprLookup_set_self]
  | fileAsset s => rw [typeExprStep]; simp [typeExprLookup_set_self]
  | remoteAsset s => rw [typeExprStep]; simp [typeExprLookup_set_self]
  | strAsset s => rw [typeExprStep]; simp [typeExprLookup_set_self]
  | toJSON v => rw [typeExprStep]; simp [typeExprLookup_set_self]
  | join d v => rw [typeExprStep]; simp [typeExprLookup_set_self]
  | split d src => rw [typeExprStep]; simp [typeExprLookup_set_self]
  | select i v =>
    rw [typeExprStep]
    cases hv : cacheGet cache v with
    | none => simp [hv, typeExprLookup_set_self]
    | some vt =>
      cases hvt : vt.map unwrapType with
      | none => simp [hv, hvt, typeExprLookup_set_self]
      | some u => cases u <;> simp [hv, hvt, typeExprLookup_set_self]
  | toBase64 v => rw [typeExprStep]; simp [typeExprLookup_set_self]
  | fromBase64 v => rw [typeExprStep]; simp [typeExprLookup_set_self]
  | readFile p => rw [typeExprStep]; simp [typeExprLookup_set_self]

theorem typeExprStep_invoke_fail_diags (env : TypeEnv) (cache : ExprCache) (tok : String)
    (callArgs : Option (List (String × Expr))) (ret : Option String)
    (h : storesNoType env cache (.invoke tok callArgs ret) = true) :
    (typeExprStep env cache (.invoke tok callArgs ret)).2 ≠ [] := by
  rw [typeExprStep, typeInvoke]
  rw [storesNoType] at h
  cases hres : resolveFunctionHint env tok with
  | none => simp [hres]
  | some hint =>
    simp only [hres] at h ⊢
    cases ret with
    | some r =>
      simp only at h
      cases hrt : lastRetType ((hint.outputs.map (·.2)).getD []) r with
      | none => simp [hrt]
      | some returnType => simp [hrt] at h
    | none => simp at h

/-- C3 counterexample: an invoke expression whose token fails to resolve is
visited by the checker, an error diagnostic is emitted, but no type is
cached for it (analyser.go lines 477-480 return before any write), so
`TypeExpr` yields nil — the claim's "typeOf(e) is defined for every visited
e" is false, and the failure also caches no invalid type carrying the
diagnostic. -/
theorem c3_counterexample_failed_invoke_uncached :
    typeExprLookup
      (typeExprStep ⟨[], [], [], []⟩ [] (.invoke "test:badFn" none none)).1
      (.invoke "test:badFn" none none) = none ∧
    (typeExprStep ⟨[], [], [], []⟩ [] (.invoke "test:badFn" none none)).2 ≠ [] := by
  constructor <;>
    simp [typeExprStep, typeInvoke, resolveFunctionHint, lastLookup, typeExprLookup,
      cacheGet]

/-- C3 (amended): every expression visited by `typeExpr` gets a defined
(non-nil) cached type unless it is an invoke whose token fails to resolve
or whose `return` attribute matches no output (which cache nothing but do
emit an error diagnostic), a secret whose operand has no cached type, or an
accessor-less symbol whose root is a variable with no cached type (these
two silently store a nil). -/
theorem c3_visited_exprs_cached_unless_failing :
    (∀ (env : TypeEnv) (cache : ExprCache) (e : Expr),
      storesNoType env cache e = false →
        (typeExprLookup (typeExprStep env cache e).1 e).isSome = true) ∧
    (∀ (env : TypeEnv) (cache : ExprCache) (tok : String)
      (callArgs : Option (List (String × Expr))) (ret : Option String),
      storesNoType env cache (.invoke tok callArgs ret) = true →
        (typeExprStep env cache (.invoke tok callArgs ret)).2 ≠ []) :=
  ⟨typeExprStep_caches_aux, typeExprStep_invoke_fail_diags⟩

theorem c3_witness :
    storesNoType ⟨[], [], [], []⟩ [] (.str "ok") = false ∧
    (typeExprLookup (typeExprStep ⟨[], [], [], []⟩ [] (.str "ok")).1
      (.str "ok")).isSome = true :=
  ⟨by simp [storesNoType],
   c3_visited_exprs_cached_unless_failing.1 ⟨[], [], [], []⟩ [] (.str "ok")
     (by simp [storesNoType])⟩

/-! ## Claim C6 -/

/-- First candidate token the package defines. -/
def firstFound (p : SchemaPackage) (candidates : List String) : Option String :=
  candidates.find? (fun c => getResourceFound p c)

/-- C6: `ResolveResource` on a two-label token tries the token verbatim,
then the `pkg:index:Name` form, then the legacy
`pkg:index/lowerName:Name` form, returning the first that the package
defines and an error otherwise; on a three-label token it first recognises
`pulumi:providers:<package name>` (always valid, yielding the provider
token), then tries the token verbatim and the legacy
`pkg:mod/lowerName:Name` form; tokens with fewer than two or more than
three labels are invalid. -/
theorem c6_resolveResource_candidate_order (lowerCamel : String → String) (p : SchemaPackage)
    (typeName : String) :
    (∀ a b, fnSplit ":" typeName = [a, b] →
      resolveResource lowerCamel p typeName =
        match firstFound p [typeName, a ++ ":index:" ++ b,
            a ++ ":index/" ++ lowerCamel b ++ ":" ++ b] with
        | some tok => .ok tok
        | none => .error ("unable to find resource type " ++ typeName ++
            " in resource provider " ++ p.name)) ∧
    (fnSplit ":" typeName = ["pulumi", "providers", p.name] →
      resolveResource lowerCamel p typeName = .ok p.providerToken) ∧
    (∀ a b c, fnSplit ":" typeName = [a, b, c] →
      ¬(a = "pulumi" ∧ b = "providers" ∧ c = p.name) →
      resolveResource lowerCamel p typeName =
        match firstFound p
            [typeName, a ++ ":" ++ b ++ "/" ++ lowerCamel c ++ ":" ++ c] with
        | some tok => .ok tok
        | none => .error ("unable to find resource type " ++ typeName ++
            " in resource provider " ++ p.name)) ∧
    (∀ parts, fnSplit ":" typeName = parts →
      (parts.length < 2 ∨ parts.length > 3) →
      resolveResource lowerCamel p typeName =
        .error ("invalid type token " ++ typeName)) := by
  refine ⟨?_, ?_, ?_, ?_⟩
  · intro a b h
    rw [resolveResource.eq_def, h]
    simp only [firstFound, List.find?]
    cases h1 : getResourceFound p typeName with
    | true => simp
    | false =>
      cases h2 : getResourceFound p (a ++ ":index:" ++ b) with
      | true => simp
      | false =>
        cases h3 : getResourceFound p (a ++ ":index/" ++ lowerCamel b ++ ":" ++ b) with
        | true => simp
        | false => simp
  · intro h
    rw [resolveResource.eq_def, h]
    simp
  · intro a b c h hne
    rw [resolveResource.eq_def, h]
    have hne2 : ¬(a = "pulumi" ∧ b = "providers" ∧ c = p.name) := hne
    simp only [firstFound, List.find?]
    cases h1 : getResourceFound p typeName with
    | true => simp [hne2]
    | false =>
      cases h2 : getResourceFound p (a ++ ":" ++ b ++ "/" ++ lowerCamel c ++ ":" ++ c) with
      | true => simp [hne2]
      | false => simp [hne2]
  · intro parts h hlen
    rw [resolveResource.eq_def, h]
    match parts, hlen with
    | [], _ => simp
    | [x], _ => simp
    | x1 :: x2 :: x3 :: x4 :: rest, _ => simp
    | [x1, x2], hl => simp at hl
    | [x1, x2, x3], hl => simp at hl

theorem c6_witness :
    resolveResource (fun _ => "bucket")
      ⟨"aws", "pulumi:providers:aws", ["aws:s3/bucket:Bucket"]⟩ "aws:s3:Bucket" =
      .ok "aws:s3/bucket:Bucket" := by
  have h := (c6_resolveResource_candidate_order (fun _ => "bucket")
    ⟨"aws", "pulumi:providers:aws", ["aws:s3/bucket:Bucket"]⟩ "aws:s3:Bucket").2.2.1
    "aws" "s3" "Bucket"
    (by simp [fnSplit, splitGo, firstOccur, List.isPrefixOf])
    (by simp)
  rw [h]
  simp [firstFound, getResourceFound, List.find?]

/-! ## Claim C9 -/

theorem colon_mem_diagsConcat (d : RunDiag) (rest : List RunDiag) :
    ':' ∈ (diagsConcat (d :: rest)).data := by
  rw [diagsConcat]
  simp [String.data_append]

/-- C9 counterexample: a run that emits only a warning has no diagnostic of
severity error, yet the returned diagnostics collection (which accumulates
both severities, spec 4.G) is non-empty and does not render as
"no diagnostics". -/
theorem c9_counterexample_warning_only_run :
    diagnosticsHasErrors [⟨.warning, "<stdin>:1,1-1", "w"⟩] = false ∧
    ([(⟨.warning, "<stdin>:1,1-1", "w"⟩ : RunDiag)] ≠ []) ∧
    diagnosticsError [⟨.warning, "<stdin>:1,1-1", "w"⟩] ≠ "no diagnostics" := by
  refine ⟨rfl, by simp, ?_⟩
  simp [diagnosticsError, diagsConcat]

/-- C9 (amended): the runner's returned diagnostics value renders as
"no diagnostics" exactly when the run emitted no diagnostics at all; any
non-empty collection (warnings included) renders each diagnostic instead. -/
theorem c9_no_diagnostics_rendering :
    (∀ ds : List RunDiag, ds = [] → diagnosticsError ds = "no diagnostics") ∧
    (∀ ds : List RunDiag, ds ≠ [] → diagnosticsError ds ≠ "no diagnostics") := by
  constructor
  · intro ds h
    subst h
    rfl
  · intro ds h
    cases ds with
    | nil => exact absurd rfl h
    | cons d rest =>
      intro hc
      rw [diagnosticsError] at hc
      simp at hc
      have h1 := colon_mem_diagsConcat d rest
      rw [hc] at h1
      simp at h1

theorem c9_witness :
    diagnosticsError [] = "no diagnostics" ∧
    diagnosticsError [⟨.error, "<stdin>:4,8-8", "missing"⟩] ≠ "no diagnostics" :=
  ⟨c9_no_diagnostics_rendering.1 [] rfl,
   c9_no_diagnostics_rendering.2 [⟨.error, "<stdin>:4,8-8", "missing"⟩] (by simp)⟩

/-! ## Claim C8 -/

theorem splitGo_ne_nil (sep s : List Char) (hsep : ¬ sep.isEmpty) :
    splitGo sep s ≠ [] := by
  rw [splitGo]
  simp only [hsep]
  cases h : firstOccur sep s <;> simp [h]

theorem firstOccur_nil_of_ne (sep : List Char) (hsep : sep ≠ []) :
    firstOccur sep [] = none := by
  rw [firstOccur]
  cases sep with
  | nil => exact absurd rfl hsep
  | cons a t => simp [List.isPrefixOf]

theorem joinGo_splitGo (sep : List Char) (hsep : sep ≠ []) :
    ∀ s : List Char, joinGo sep (splitGo sep s) = s := by
  have hcond : ¬ (sep.isEmpty = true) := by simp [hsep]
  have main : ∀ n (s : List Char), s.length ≤ n → joinGo sep (splitGo sep s) = s := by
    intro n
    induction n with
    | zero =>
      intro s hle
      have hs : s = [] := by
        cases s with
        | nil => rfl
        | cons a t => simp at hle
      subst hs
      rw [splitGo, dif_neg hcond]
      split
      · simp [joinGo]
      · rename_i i hocc
        rw [firstOccur_nil_of_ne sep hsep] at hocc
        exact Option.noConfusion hocc
    | succ n ih =>
      intro s hle
      rw [splitGo, dif_neg hcond]
      split
      · simp [joinGo]
      · rename_i i hocc
        have hbound := firstOccur_bound sep s i hocc
        have hpre := firstOccur_isPrefix sep s i hocc
        have hseplen : 1 ≤ sep.length := by
          cases sep with
          | nil => exact absurd rfl hsep
          | cons a t => simp
        have hrest : (s.drop (i + sep.length)).length ≤ n := by
          simp
          omega
        have hih := ih _ hrest
        have hne := splitGo_ne_nil sep (s.drop (i + sep.length)) hcond
        cases hsplit : splitGo sep (s.drop (i + sep.length)) with
        | nil => exact absurd hsplit hne
        | cons x xs =>
          simp only [joinGo]
          rw [hsplit] at hih
          rw [hih]
          obtain ⟨t, ht⟩ := List.isPrefixOf_iff_prefix.mp hpre
          have ht2 : t = List.drop (i + sep.length) s := by
            have hdl := congrArg (List.drop sep.length) ht
            rw [List.drop_left] at hdl
            rw [hdl, List.drop_drop]
            try (congr 1; omega)
            try (congr 1)
            try omega
          calc List.take i s ++ sep ++ (List.drop (i + sep.length) s)
              = List.take i s ++ (sep ++ t) := by rw [← ht2]; simp
            _ = List.take i s ++ List.drop i s := by rw [ht]
            _ = s := List.take_append_drop i s
  exact fun s => main s.length s le_rfl

/-- C8: for any string and non-empty delimiter, `fn::join` with that
delimiter over the result of `fn::split` returns the original string, and
splitting the empty string yields the one-element list containing the
empty string. -/
theorem c8_join_split_inverse (d s : String) (hd : d ≠ "") :
    fnJoin d (fnSplit d s) = s ∧ fnSplit d "" = [""] := by
  have hdata : d.data ≠ [] := by
    intro hc
    apply hd
    cases d with
    | mk l =>
      simp at hc
      simp [hc]
  have hcond : ¬ (d.data.isEmpty = true) := by simp [hdata]
  constructor
  · rw [fnJoin, fnSplit]
    rw [List.map_map]
    have hmaps : (String.data ∘ String.mk) = id := by
      funext l
      rfl
    rw [hmaps, List.map_id]
    rw [joinGo_splitGo d.data hdata s.data]
  · rw [fnSplit]
    have hnil : ("" : String).data = [] := rfl
    rw [hnil]
    rw [splitGo, dif_neg hcond]
    split
    · rfl
    · rename_i i hocc
      rw [firstOccur_nil_of_ne d.data hdata] at hocc
      exact Option.noConfusion hocc

theorem c8_witness :
    fnJoin "," (fnSplit "," "a,b") = "a,b" ∧ fnSplit "," "" = [""] :=
  c8_join_split_inverse "," "a,b" (by decide)

/-! ## Claim C7 -/

theorem idxOf_getD (l : List Char) (c : Char) (v : Nat) (d : Char)
    (h : idxOf l c = some v) : l.getD v d = c := by
  induction l generalizing v with
  | nil => simp [idxOf] at h
  | cons x rest ih =>
    rw [idxOf] at h
    split at h
    · cases h
      simp_all
    · simp only [Option.map_eq_some'] at h
      obtain ⟨w, hw, rfl⟩ := h
      simpa using ih w hw

theorem idxOf_lt_length (l : List Char) (c : Char) (v : Nat)
    (h : idxOf l c = some v) : v < l.length := by
  induction l generalizing v with
  | nil => simp [idxOf] at h
  | cons x rest ih =>
    rw [idxOf] at h
    split at h
    · cases h
      simp
    · simp only [Option.map_eq_some'] at h
      obtain ⟨w, hw, rfl⟩ := h
      have := ih w hw
      simp
      omega

theorem b64val_lt (c : Char) (v : Nat) (h : b64val c = some v) : v < 64 := by
  have h1 := idxOf_lt_length b64chars c v h
  have h2 : b64chars.length = 64 := by decide
  omega

theorem b64char_val (c : Char) (v : Nat) (h : b64val c = some v) :
    b64char v = c := idxOf_getD b64chars c v 'A' h

theorem b64encode_decode : ∀ n (cs : List Char), cs.length ≤ n →
    ∀ bs, b64decode cs = some bs → b64encode bs = cs := by
  intro n
  induction n with
  | zero =>
    intro cs hle bs hdec
    have hcs : cs = [] := by
      cases cs with
      | nil => rfl
      | cons a t => simp at hle
    subst hcs
    rw [b64decode] at hdec
    cases hdec
    rw [b64encode]
  | succ n ih =>
    intro cs hle bs hdec
    match cs, hle, hdec with
    | [], _, hdec =>
      rw [b64decode] at hdec
      cases hdec
      rw [b64encode]
    | [c0], _, hdec => simp [b64decode] at hdec
    | [c0, c1], _, hdec => simp [b64decode] at hdec
    | [c0, c1, c2], _, hdec => simp [b64decode] at hdec
    | c0 :: c1 :: c2 :: c3 :: rest, hle, hdec =>
      rw [b64decode] at hdec
      cases hv0 : b64val c0 with
      | none => rw [hv0] at hdec; exact Option.noConfusion hdec
      | some v0 =>
      cases hv1 : b64val c1 with
      | none => rw [hv0, hv1] at hdec; exact Option.noConfusion hdec
      | some v1 =>
      rw [hv0, hv1] at hdec
      simp only at hdec
      have hb0 := b64val_lt c0 v0 hv0
      have hb1 := b64val_lt c1 v1 hv1
      by_cases h2 : c2 = '='
      · by_cases h3 : c3 = '='
        · simp only [h2, h3, if_true] at hdec
          split at hdec
          · rename_i hcond
            cases hdec
            obtain ⟨hrest, hmod⟩ := hcond
            subst hrest
            rw [b64encode]
            have e0 : (v0 * 4 + v1 / 16) / 4 = v0 := by omega
            have e1 : (v0 * 4 + v1 / 16) % 4 * 16 = v1 := by omega
            rw [e0, e1, b64char_val c0 v0 hv0, b64char_val c1 v1 hv1, h2, h3]
          · exact Option.noConfusion hdec
        · simp only [h2, h3, if_true, if_false] at hdec
          exact Option.noConfusion hdec
      · by_cases h3 : c3 = '='
        · simp only [h2, h3, if_false, if_true] at hdec
          cases hv2 : b64val c2 with
          | none => rw [hv2] at hdec; exact Option.noConfusion hdec
          | some v2 =>
            rw [hv2] at hdec
            simp only at hdec
            have hb2 := b64val_lt c2 v2 hv2
            split at hdec
            · rename_i hcond
              cases hdec
              obtain ⟨hrest, hmod⟩ := hcond
              subst hrest
              rw [b64encode]
              have e0 : (v0 * 4 + v1 / 16) / 4 = v0 := by omega
              have e1 : (v0 * 4 + v1 / 16) % 4 * 16 + (v1 % 16 * 16 + v2 / 4) / 16 = v1 := by
                omega
              have e2 : (v1 % 16 * 16 + v2 / 4) % 16 * 4 = v2 := by omega
              rw [e0, e1, e2, b64char_val c0 v0 hv0, b64char_val c1 v1 hv1,
                b64char_val c2 v2 hv2, h3]
            · exact Option.noConfusion hdec
        · simp only [h2, h3, if_false] at hdec
          cases hv2 : b64val c2 with
          | none => rw [hv2] at hdec; exact Option.noConfusion hdec
          | some v2 =>
          cases hv3 : b64val c3 with
          | none => rw [hv2, hv3] at hdec; exact Option.noConfusion hdec
          | some v3 =>
          rw [hv2, hv3] at hdec
          simp only [Option.map_eq_some'] at hdec
          obtain ⟨bs2, hbs2, rfl⟩ := hdec
          have hb2 := b64val_lt c2 v2 hv2
          have hb3 := b64val_lt c3 v3 hv3
          have hrec : b64encode bs2 = rest := by
            apply ih rest (by simp at hle; omega) bs2 hbs2
          rw [b64encode]
          have e0 : (v0 * 4 + v1 / 16) / 4 = v0 := by omega
          have e1 : (v0 * 4 + v1 / 16) % 4 * 16 + (v1 % 16 * 16 + v2 / 4) / 16 = v1 := by
            omega
          have e2 : (v1 % 16 * 16 + v2 / 4) % 16 * 4 + (v2 % 4 * 64 + v3) / 64 = v2 := by
            omega
          have e3 : (v2 % 4 * 64 + v3) % 64 = v3 := by omega
          rw [e0, e1, e2, e3, b64char_val c0 v0 hv0, b64char_val c1 v1 hv1,
            b64char_val c2 v2 hv2, b64char_val c3 v3 hv3, hrec]

/-- C7: whenever `fn::fromBase64` succeeds on an input (its base64 payload
decodes and is valid UTF-8), `fn::toBase64` of the resulting string gives
back the input unchanged; when the decoded bytes are not valid UTF-8,
`fn::fromBase64` fails. -/
theorem c7_base64_roundtrip :
    (∀ (s : String) (bs : List Nat), fnFromBase64 s = some bs → fnToBase64 bs = s) ∧
    (∀ (s : String) (bs : List Nat), b64decode s.data = some bs →
      utf8Valid bs = false → fnFromBase64 s = none) := by
  constructor
  · intro s bs h
    rw [fnFromBase64] at h
    cases hdec : b64decode s.data with
    | none => rw [hdec] at h; exact Option.noConfusion h
    | some bs2 =>
      rw [hdec] at h
      simp only at h
      split at h
      · cases h
        rw [fnToBase64]
        rw [b64encode_decode s.data.length s.data le_rfl bs hdec]
      · exact Option.noConfusion h
  · intro s bs hdec hval
    rw [fnFromBase64, hdec]
    simp [hval]

theorem c7_witness :
    fnFromBase64 "aGk=" = some [104, 105] ∧ fnToBase64 [104, 105] = "aGk=" ∧
    b64decode "wyg=".data = some [195, 40] ∧ utf8Valid [195, 40] = false ∧
    fnFromBase64 "wyg=" = none := by
  have h1 : fnFromBase64 "aGk=" = some [104, 105] := by decide
  have h3 : b64decode "wyg=".data = some [195, 40] := by decide
  have h4 : utf8Valid [195, 40] = false := by decide
  exact ⟨h1, c7_base64_roundtrip.1 "aGk=" [104, 105] h1, h3, h4, c7_base64_roundtrip.2 "wyg=" [195, 40] h3 h4⟩

theorem c1_witness :
    (isAssignable .numberType .intType).isNone =
      (isAssignable .numberType .numberType).isNone :=
  c1_int_number_targets_agree .numberType

theorem c4_witness :
    (typePropertyAccess (.unionType [.arrayType .stringType, .arrayType .numberType])
      "start" [.subInt 0]).2 = [] := by
  have h := c4_union_access_error_iff_some_branch_fails
    [.arrayType .stringType, .arrayType .numberType] "start" (.subInt 0) []
  apply h.1.mpr
  intro s hs
  simp only [List.mem_cons, List.mem_singleton, List.not_mem_nil] at hs
  rcases hs with rfl | rfl | hfalse
  · simp [typePropertyAccess, unwrapType]
  · simp [typePropertyAccess, unwrapType]
  · simp at hfalse
